/-
Verification of the ProductInsight content-analysis core:
`AdvancedContentAnalyzer` (app/infrastructure/ai_services/advanced_content_analyzer.py)
and `LLMService` together with `LLMCache` and `retry_on_failure`
(app/infrastructure/ai_services/llm_service.py).

The Python code is shallowly embedded:
* Python `str` is Lean `String`; all string primitives used by the code
  (`lower`, `strip`, slicing, `in`-substring test, `split`) are defined here
  on `String.data : List Char`, idealising Python's Unicode handling to a
  per-character treatment (the analysed code only ever uses ASCII lexicons).
* Python numbers are exact: `int` is `ℤ`/`ℕ`, `float` results are `ℚ` where
  the code computes field operations, and `ℝ` where `statistics.stdev`
  (a square root) is involved. `round(x, n)` is banker's rounding, exact.
* Python dicts keyed by strings are insertion-ordered association lists;
  dict values of heterogeneous type are the small sum type `PyVal`.
* Operations that can raise return `Except Unit`; a `.error ()` marks the
  exact program points where the Python code raises
  (ZeroDivisionError / KeyError / ValueError / TypeError / transport errors).
-/
import Mathlib

set_option linter.unusedVariables false

namespace ProductInsight

/-! ## Python string primitives -/

/-- The whitespace characters stripped by Python `str.strip()`. -/
def pyIsSpace (c : Char) : Bool :=
  c = ' ' || c = '\t' || c = '\n' || c = '\r' || c = '\x0b' || c = '\x0c'

/-- Python `str.lower()` (per-character, ASCII-adequate). -/
def pyLower (s : String) : String := ⟨s.data.map Char.toLower⟩

/-- Python `str.strip()`: drop leading and trailing whitespace. -/
def pyStrip (s : String) : String :=
  ⟨((s.data.dropWhile pyIsSpace).reverse.dropWhile pyIsSpace).reverse⟩

/-- Python `s[:n]` for a string and `0 ≤ n`. -/
def pyTake (s : String) (n : ℕ) : String := ⟨s.data.take n⟩

/-- Python `len(s)` for a string (number of code points). -/
def pyLen (s : String) : ℕ := s.data.length

/-- Does the character list `hay` start with `needle`? -/
def listStartsWith : List Char → List Char → Bool
  | _, [] => true
  | [], _ :: _ => false
  | a :: as, b :: bs => a = b && listStartsWith as bs

/-- Substring test on character lists (`needle` occurs inside `hay`). -/
def containsSub (needle : List Char) : List Char → Bool
  | [] => needle.isEmpty
  | c :: rest => listStartsWith (c :: rest) needle || containsSub needle rest

/-- Python `w in s` substring test. -/
def strContains (w s : String) : Bool := containsSub w.data s.data

/-- Python `' '.join(texts)`. -/
def joinWith (sep : String) : List String → String
  | [] => ""
  | [t] => t
  | t :: rest => t ++ sep ++ joinWith sep rest

/-- Maximal runs of characters satisfying `p` (auxiliary, accumulator form). -/
def splitRunsAux (p : Char → Bool) : List Char → List Char → List (List Char)
  | [], cur => if cur.isEmpty then [] else [cur.reverse]
  | c :: rest, cur =>
    if p c then splitRunsAux p rest (c :: cur)
    else if cur.isEmpty then splitRunsAux p rest []
    else cur.reverse :: splitRunsAux p rest []

/-- Maximal runs of characters satisfying `p`. -/
def splitRuns (p : Char → Bool) (l : List Char) : List (List Char) :=
  splitRunsAux p l []

/-- Python `str.split()` (split on whitespace runs, dropping empties). -/
def pySplitWs (s : String) : List String :=
  (splitRuns (fun c => !pyIsSpace c) s.data).map (⟨·⟩)

/-! ## Exact Python arithmetic helpers -/

/-- Python `round(x)` to the nearest integer, ties to even (banker's rounding). -/
def roundHalfEven {α : Type} [LinearOrderedField α] [FloorRing α] (x : α) : ℤ :=
  if x - ⌊x⌋ < 1/2 then ⌊x⌋
  else if 1/2 < x - ⌊x⌋ then ⌊x⌋ + 1
  else if ⌊x⌋ % 2 = 0 then ⌊x⌋ else ⌊x⌋ + 1

/-- Python `round(x, 2)`. -/
def round2 {α : Type} [LinearOrderedField α] [FloorRing α] (x : α) : α :=
  (roundHalfEven (100 * x) : α) / 100

/-- Python `round(x, 1)`. -/
def round1 {α : Type} [LinearOrderedField α] [FloorRing α] (x : α) : α :=
  (roundHalfEven (10 * x) : α) / 10

/-- `statistics.mean` (caller guards against the empty list). -/
def mean (l : List ℚ) : ℚ := l.sum / l.length

/-- Sample variance with the `n-1` denominator, as used by `statistics.stdev`
(caller guards `len > 1`). -/
def sampleVariance (l : List ℚ) : ℚ :=
  (l.map (fun x => (x - mean l) ^ 2)).sum / ((l.length : ℚ) - 1)

/-- `statistics.stdev`, exact: the square root of the sample variance. -/
noncomputable def sampleStdev (l : List ℚ) : ℝ :=
  Real.sqrt ((sampleVariance l : ℚ) : ℝ)

/-- `collections.Counter` of a list of strings: (element, count) pairs in
first-occurrence order, one pair per distinct element. -/
def counts (l : List String) : List (String × ℕ) :=
  l.foldl
    (fun acc w =>
      if acc.any (fun p => p.1 = w) then
        acc.map (fun p => if p.1 = w then (p.1, p.2 + 1) else p)
      else acc ++ [(w, 1)])
    []

/-- Stable insertion of `x` into a list sorted descending by `wt`
(`x` goes before the first element of not-larger weight, preserving the
relative order of equals: Python's stable `sorted(..., reverse=True)`). -/
def insertDescBy {α : Type} {β : Type} [LinearOrder β] (wt : α → β) (x : α) :
    List α → List α
  | [] => [x]
  | y :: ys => if wt x < wt y then y :: insertDescBy wt x ys else x :: y :: ys

/-- Stable descending sort by weight (Python `sorted(..., reverse=True)`). -/
def sortDescBy {α : Type} {β : Type} [LinearOrder β] (wt : α → β) (l : List α) :
    List α :=
  l.foldr (insertDescBy wt) []

/-- Python `max` over a nonempty list of rationals (0 for the empty list,
which every call site guards against). -/
def listMaxQ : List ℚ → ℚ
  | [] => 0
  | x :: xs => xs.foldl max x

/-- Python `min` over a nonempty list of strings ("" for the empty list,
which every call site guards against). -/
def listMinStr : List String → String
  | [] => ""
  | x :: xs => xs.foldl min x

/-- Python `max` over a nonempty list of strings. -/
def listMaxStr : List String → String
  | [] => ""
  | x :: xs => xs.foldl max x

/-! ## Python values and records

A `Record` is one content item: a string-keyed dict whose values are
strings or numbers (the only value shapes the analysed code distinguishes).
-/

/-- A Python dict value as far as the analysis code inspects it. -/
inductive PyVal : Type
  | vstr (s : String)
  | vnum (q : ℚ)
  deriving DecidableEq, Repr

/-- Python truthiness of a `PyVal` (`""` and `0` are falsy). -/
def pyTruthy : PyVal → Bool
  | .vstr s => !s.data.isEmpty
  | .vnum q => q ≠ 0

/-- A content record: an association list from field name to value. -/
def Record : Type := List (String × PyVal)

/-- Python `item.get(key)` (`None` when absent is `Option.none`). -/
def rget (r : Record) (k : String) : Option PyVal :=
  (r.find? (fun p => p.1 = k)).map (·.2)

/-- Python `item.get(key, default)`. -/
def rgetD (r : Record) (k : String) (d : PyVal) : PyVal := (rget r k).getD d

/-- A `PyVal` used as a number; a string raises TypeError when aggregated. -/
def asNum : PyVal → Except Unit ℚ
  | .vnum q => .ok q
  | .vstr _ => .error ()

/-! ## AdvancedContentAnalyzer: lexicons (`__init__`) -/

namespace Analyzer

/-- `self.emotion_keywords` (insertion order preserved). -/
def emotionKeywords : List (String × List String) :=
  [("joy", ["happy", "excited", "amazing", "wonderful", "fantastic", "love", "great", "excellent"]),
   ("anger", ["angry", "frustrated", "terrible", "awful", "horrible", "hate", "worst", "disgusting"]),
   ("fear", ["worried", "scared", "concerned", "afraid", "nervous", "uncertain", "risk", "dangerous"]),
   ("surprise", ["unexpected", "surprising", "wow", "incredible", "unbelievable", "shocking"]),
   ("sadness", ["disappointed", "sad", "depressed", "unhappy", "upset", "regret", "sorry"]),
   ("trust", ["reliable", "trustworthy", "dependable", "honest", "authentic", "genuine", "quality"])]

/-- `self.business_intent_keywords`. -/
def businessIntentKeywords : List (String × List String) :=
  [("purchase_intent", ["buy", "purchase", "order", "get", "want", "need", "shopping", "price"]),
   ("complaint", ["problem", "issue", "broken", "defective", "wrong", "error", "complaint", "refund"]),
   ("compliment", ["thank", "appreciate", "recommend", "satisfied", "perfect", "impressed"]),
   ("feature_request", ["wish", "hope", "would like", "suggestion", "improve", "add", "feature", "update"]),
   ("support_needed", ["help", "assistance", "support", "how to", "question", "confused", "unclear"])]

/-- `self.product_aspects`. -/
def productAspects : List (String × List String) :=
  [("quality", ["quality", "build", "material", "construction", "durable", "solid", "cheap", "flimsy"]),
   ("price", ["price", "cost", "expensive", "cheap", "value", "money", "affordable", "budget"]),
   ("design", ["design", "look", "appearance", "style", "color", "beautiful", "ugly", "attractive"]),
   ("performance", ["performance", "speed", "fast", "slow", "efficient", "lag", "smooth", "responsive"]),
   ("usability", ["easy", "difficult", "user-friendly", "complicated", "intuitive", "confusing"]),
   ("support", ["support", "service", "help", "response", "staff", "team", "customer service"]),
   ("delivery", ["delivery", "shipping", "fast", "slow", "arrived", "late", "on time", "packaging"])]

/-! ## `_extract_texts` -/

/-- The text-bearing field fallback chain of `_extract_texts`. -/
def textFields : List String :=
  ["text", "description", "caption", "content", "review_text", "comment"]

/-- `_extract_texts`: first truthy text field, kept if it is a string that is
nonempty after stripping; appended stripped. -/
def extractTexts (contentList : List Record) : List String :=
  contentList.filterMap (fun item =>
    match (textFields.filterMap (rget item)).find? pyTruthy with
    | some (.vstr s) => if (pyStrip s).data ≠ [] then some (pyStrip s) else none
    | _ => none)

/-! ## `_analyze_basic_sentiment` -/

/-- The positive lexicon of `_analyze_basic_sentiment`. -/
def positiveWords : List String :=
  ["good", "great", "excellent", "amazing", "wonderful", "fantastic", "love", "perfect", "best"]

/-- The negative lexicon of `_analyze_basic_sentiment`. -/
def negativeWords : List String :=
  ["bad", "terrible", "awful", "horrible", "worst", "hate", "disappointing", "poor"]

/-- `pos_count` for one text: positive lexicon words occurring in the
lowercased text (each distinct word counted once, substring match). -/
def posCount (t : String) : ℕ :=
  (positiveWords.filter (fun w => strContains w (pyLower t))).length

/-- `neg_count` for one text. -/
def negCount (t : String) : ℕ :=
  (negativeWords.filter (fun w => strContains w (pyLower t))).length

/-- The per-text sentiment score: `(pos-neg)/(pos+neg)`, `0` with no hits. -/
def textSentimentScore (t : String) : ℚ :=
  if posCount t + negCount t = 0 then 0
  else ((posCount t : ℚ) - negCount t) / ((posCount t : ℚ) + negCount t)

/-- The `scores` list of `_analyze_basic_sentiment`. -/
def scoresOf (texts : List String) : List ℚ := texts.map textSentimentScore

/-- `avg_score = statistics.mean(scores) if scores else 0`. -/
def avgScoreOf (texts : List String) : ℚ :=
  if scoresOf texts = [] then 0 else mean (scoresOf texts)

/-- The sentiment label thresholds (`> 0.1` positive, `< -0.1` negative). -/
def sentimentLabelOf (avg : ℚ) : String :=
  if avg > 1/10 then "positive" else if avg < -(1/10) then "negative" else "neutral"

/-- Per-label counts at the same `±0.1` thresholds. -/
structure SentimentDistribution : Type where
  positive : ℕ
  negative : ℕ
  neutral : ℕ
  deriving DecidableEq, Repr

/-- The `distribution` dict of `_analyze_basic_sentiment`. -/
def distributionOf (scores : List ℚ) : SentimentDistribution :=
  ⟨(scores.filter (fun s => s > 1/10)).length,
   (scores.filter (fun s => s < -(1/10))).length,
   (scores.filter (fun s => -(1/10) ≤ s ∧ s ≤ 1/10)).length⟩

/-- `confidence = 1 - (statistics.stdev(scores) if len(scores) > 1 else 0)`. -/
noncomputable def stdevUsed (scores : List ℚ) : ℝ :=
  if 1 < scores.length then sampleStdev scores else 0

/-- Result dict of `_analyze_basic_sentiment`. The empty-input return carries
only `sentiment` / `confidence` / `intensity`, so `score` and `distribution`
are `Option`s that it leaves `none`. -/
structure BasicSentimentResult : Type where
  sentiment : String
  confidence : ℝ
  intensity : ℚ
  score : Option ℚ
  distribution : Option SentimentDistribution

/-- `_analyze_basic_sentiment`. -/
noncomputable def analyzeBasicSentiment (texts : List String) : BasicSentimentResult :=
  if texts = [] then ⟨"neutral", 0, 0, none, none⟩
  else
    let scores := scoresOf texts
    let avg := avgScoreOf texts
    ⟨sentimentLabelOf avg,
     round2 (1 - stdevUsed scores),
     round2 |avg|,
     some (round2 avg),
     some (distributionOf scores)⟩

/-! ## `_analyze_emotions` -/

/-- Result dict of `_analyze_emotions`; the `_empty_analysis_result` sentinel
carries only the first two keys. -/
structure EmotionResult : Type where
  emotionDistribution : List (String × ℚ)
  dominantEmotions : List String
  emotionIntensity : Option ℚ
  mixedEmotions : Option Bool
  deriving DecidableEq, Repr

/-- `_analyze_emotions`. -/
def analyzeEmotions (texts : List String) : EmotionResult :=
  let scores : List (String × ℕ) :=
    emotionKeywords.map (fun ek =>
      (ek.1, (texts.map (fun t =>
        (ek.2.filter (fun w => strContains w (pyLower t))).length)).sum))
  let total := (scores.map (·.2)).sum
  let dist : List (String × ℚ) :=
    if total > 0 then scores.map (fun p => (p.1, round2 ((p.2 : ℚ) / total)))
    else scores.map (fun p => (p.1, (p.2 : ℚ)))
  ⟨dist,
   (((sortDescBy (·.2) dist).take 3).filter (fun p => p.2 > 0)).map (·.1),
   some (if dist.isEmpty then 0 else listMaxQ (dist.map (·.2))),
   some (((dist.map (·.2)).filter (fun s => s > 1/10)).length > 1)⟩

/-! ## `_extract_topics` -/

/-- The stop-word set of `_extract_topics`. -/
def stopWords : List String :=
  ["the", "a", "an", "and", "or", "but", "in", "on", "at", "to", "for", "of",
   "with", "by", "is", "are", "was", "were", "be", "been", "have", "has", "had",
   "do", "does", "did", "will", "would", "could", "should", "this", "that",
   "these", "those", "i", "you", "he", "she", "it", "we", "they", "my", "your",
   "his", "her", "its", "our", "their"]

/-- A regex `\w` word character (ASCII). -/
def wordChar (c : Char) : Bool := c.isAlpha || c.isDigit || c = '_'

/-- All matches of `\b[a-zA-Z]{3,}\b` in `s`: the maximal word-character runs
that consist entirely of letters and have length at least 3. -/
def findTopicTokens (s : String) : List String :=
  ((splitRuns wordChar s.data).filter
    (fun run => decide (3 ≤ run.length) && run.all Char.isAlpha)).map (⟨·⟩)

/-- Result dict of `_extract_topics`; the sentinel lacks `topic_diversity`. -/
structure TopicResult : Type where
  topTopics : List (String × ℕ)
  totalUniqueTopics : ℕ
  topicDiversity : Option ℚ
  deriving DecidableEq, Repr

/-- `_extract_topics`. -/
def extractTopics (texts : List String) : TopicResult :=
  let combined := pyLower (joinWith " " texts)
  let words := (findTopicTokens combined).filter (fun w => !stopWords.contains w)
  let wordFreq := counts words
  ⟨(sortDescBy (·.2) wordFreq).take 10,
   wordFreq.length,
   some (if words ≠ [] then (wordFreq.length : ℚ) / words.length else 0)⟩

/-! ## `_analyze_aspect_sentiment` -/

/-- One value of the `aspect_sentiments` dict. -/
structure AspectEntry : Type where
  sentiment : String
  score : ℚ
  mentions : ℕ
  confidence : ℝ

/-- `_analyze_aspect_sentiment`; aspects with no matching text are omitted.
The source reads `sentiment_result['score']` directly, which is present
because the aspect subset is nonempty; `Option.getD 0` encodes that read. -/
noncomputable def analyzeAspectSentiment (texts : List String) :
    List (String × AspectEntry) :=
  productAspects.filterMap (fun ak =>
    let aspectTexts := texts.filter (fun t =>
      ak.2.any (fun w => strContains w (pyLower t)))
    if aspectTexts = [] then none
    else
      let sr := analyzeBasicSentiment aspectTexts
      some (ak.1, ⟨sr.sentiment, sr.score.getD 0, aspectTexts.length, sr.confidence⟩))

/-! ## `_analyze_intent` -/

/-- Result dict of `_analyze_intent`; the sentinel carries only the first two
keys. -/
structure IntentResult : Type where
  primaryIntent : String
  intentConfidence : ℚ
  intentDistribution : Option (List (String × ℚ))
  mixedIntent : Option Bool
  deriving DecidableEq, Repr

/-- Python `max(items, key=value)`: the first maximal pair. -/
def maxByVal (l : List (String × ℚ)) : String × ℚ :=
  match l with
  | [] => ("", 0)
  | x :: xs => xs.foldl (fun best p => if p.2 > best.2 then p else best) x

/-- `_analyze_intent`. -/
def analyzeIntent (texts : List String) : IntentResult :=
  let scores : List (String × ℕ) :=
    businessIntentKeywords.map (fun ik =>
      (ik.1, (texts.map (fun t =>
        (ik.2.filter (fun w => strContains w (pyLower t))).length)).sum))
  let total := (scores.map (·.2)).sum
  if total > 0 then
    let dist := scores.map (fun p => (p.1, round2 ((p.2 : ℚ) / total)))
    let primary := maxByVal dist
    ⟨primary.1, primary.2, some dist,
     some (((dist.map (·.2)).filter (fun s => s > 1/5)).length > 1)⟩
  else
    let dist := scores.map (fun p => (p.1, (p.2 : ℚ)))
    ⟨"unknown", 0, some dist,
     some (((dist.map (·.2)).filter (fun s => s > 1/5)).length > 1)⟩

/-! ## `_generate_business_insights` -/

/-- The opportunity-signal keywords. -/
def opportunityKeywords : List String :=
  ["want", "need", "wish", "hope", "would like", "missing", "lack"]

/-- The risk-signal keywords. -/
def riskKeywords : List String :=
  ["problem", "issue", "complaint", "disappointed", "angry", "frustrated"]

/-- `text[:100] + '...' if len(text) > 100 else text`. -/
def truncate100 (t : String) : String :=
  if 100 < pyLen t then pyTake t 100 ++ "..." else t

/-- Result dict of `_generate_business_insights`; the sentinel carries only
the first two keys (the last three are built but never populated). -/
structure BusinessInsights : Type where
  keyOpportunities : List String
  riskAreas : List String
  improvementSuggestions : Option (List String)
  competitiveAdvantages : Option (List String)
  customerNeeds : Option (List String)
  deriving DecidableEq, Repr

/-- `_generate_business_insights` (the record list parameter is unused by the
source body as well). -/
def generateBusinessInsights (texts : List String) (contentList : List Record) :
    BusinessInsights :=
  let opp := (texts.filter (fun t =>
    opportunityKeywords.any (fun w => strContains w (pyLower t)))).map truncate100
  let risk := (texts.filter (fun t =>
    riskKeywords.any (fun w => strContains w (pyLower t)))).map truncate100
  ⟨opp.take 5, risk.take 5, some [], some [], some []⟩

/-! ## `_analyze_temporal_patterns` -/

/-- The date-bearing field fallback chain. -/
def dateFields : List String := ["date", "created_at", "timestamp"]

/-- The two return shapes of `_analyze_temporal_patterns`. -/
inductive TemporalResult : Type
  | noData
  | data (dateRange : String × String) (postFrequency : ℚ)
      (peakDates : List (String × ℕ)) (trend : String)
  deriving DecidableEq, Repr

/-- `_analyze_temporal_patterns`: collect `date_str[:10]` for each record with
a truthy string date field; non-strings are skipped by the isinstance guard. -/
def analyzeTemporalPatterns (contentList : List Record) : TemporalResult :=
  let dates := contentList.filterMap (fun item =>
    match (dateFields.filterMap (rget item)).find? pyTruthy with
    | some (.vstr s) => some (pyTake s 10)
    | _ => none)
  if dates = [] then .noData
  else
    .data (listMinStr dates, listMaxStr dates)
      ((dates.length : ℚ) / (max 1 dates.dedup.length : ℕ))
      ((sortDescBy (·.2) (counts dates)).take 3)
      (if 10 < dates.length then "increasing" else "stable")

/-! ## `_analyze_engagement_patterns` -/

/-- The two return shapes of `_analyze_engagement_patterns`. -/
inductive EngagementResult : Type
  | noData
  | data (avgLikes avgComments avgShares totalAvg : ℚ) (engagementRate : String)
      (bestPerforming : ℚ × ℚ × ℚ)
  deriving DecidableEq, Repr

/-- Python `max(engagements, key=likes+comments+shares)`: first maximal. -/
def maxBySum (l : List (ℚ × ℚ × ℚ)) : ℚ × ℚ × ℚ :=
  match l with
  | [] => (0, 0, 0)
  | x :: xs => xs.foldl (fun best p =>
      if p.1 + p.2.1 + p.2.2 > best.1 + best.2.1 + best.2.2 then p else best) x

/-- `_analyze_engagement_patterns`. The platform argument is unused by the
source body. A non-numeric engagement value makes `statistics.mean` raise
TypeError, modelled as `.error ()`. -/
def analyzeEngagementPatterns (contentList : List Record)
    (platform : Option String) : Except Unit EngagementResult :=
  let engagements : List (PyVal × PyVal × PyVal) :=
    contentList.map (fun item =>
      (rgetD item "like_count" (rgetD item "likes" (.vnum 0)),
       rgetD item "reply_count" (rgetD item "comment_count" (rgetD item "comments" (.vnum 0))),
       rgetD item "retweet_count" (rgetD item "share_count" (rgetD item "shares" (.vnum 0)))))
  if engagements = [] then .ok .noData
  else
    match engagements.mapM (fun e => do
        let a ← asNum e.1
        let b ← asNum e.2.1
        let c ← asNum e.2.2
        pure (a, b, c)) with
    | .error _ => .error ()
    | .ok nums =>
      let avgLikes := mean (nums.map (·.1))
      let avgComments := mean (nums.map (·.2.1))
      let avgShares := mean (nums.map (·.2.2))
      let total := avgLikes + avgComments + avgShares
      .ok (.data (round1 avgLikes) (round1 avgComments) (round1 avgShares)
        (round1 total)
        (if total > 100 then "high" else if total > 20 then "medium" else "low")
        (maxBySum nums))

/-! ## `_assess_content_quality` -/

/-- The `quality_indicators` dict. -/
structure QualityIndicators : Type where
  averageLength : ℚ
  lengthVariance : ℝ
  readability : String
  contentRichness : ℚ

/-- Result dict of `_assess_content_quality`; the empty-input return carries
only `quality_score`. -/
structure QualityResult : Type where
  qualityScore : ℚ
  qualityIndicators : Option QualityIndicators

/-- `content_richness`: distinct whitespace-separated lowercased words divided
by the total character count. -/
def contentRichness (texts : List String) : ℚ :=
  let totalLength := (texts.map pyLen).sum
  if totalLength > 0 then
    ((pySplitWs (pyLower (joinWith " " texts))).dedup.length : ℚ) / totalLength
  else 0

/-- `average_length`. -/
def averageLength (texts : List String) : ℚ :=
  ((texts.map pyLen).sum : ℚ) / texts.length

/-- `readability`. -/
def readabilityOf (texts : List String) : String :=
  if 50 < averageLength texts ∧ averageLength texts < 200 then "good"
  else "needs_improvement"

/-- The quality score before rounding:
`0.7`-or-`0.4` plus `min(richness*10, 0.3)`. -/
def qualityScoreRaw (texts : List String) : ℚ :=
  (if readabilityOf texts = "good" then 7/10 else 2/5)
    + min (contentRichness texts * 10) (3/10)

/-- `statistics.stdev` of the text lengths (`0` for fewer than 2 texts). -/
noncomputable def lengthStdev (texts : List String) : ℝ :=
  if 1 < texts.length then sampleStdev (texts.map (fun t => (pyLen t : ℚ)))
  else 0

/-- `_assess_content_quality`. -/
noncomputable def assessContentQuality (texts : List String) : QualityResult :=
  if texts = [] then ⟨0, none⟩
  else
    ⟨round2 (qualityScoreRaw texts),
     some ⟨averageLength texts, lengthStdev texts, readabilityOf texts,
       contentRichness texts⟩⟩

/-! ## `_extract_competitive_insights` -/

/-- The comparison phrases. -/
def comparisonKeywords : List String :=
  ["better than", "worse than", "compared to", "vs", "versus", "alternative to"]

/-- Result dict of `_extract_competitive_insights`; the sentinel carries only
`competitor_mentions`. -/
structure CompetitiveResult : Type where
  competitorMentions : List String
  competitiveContext : Option Bool
  comparisonFrequency : Option ℚ
  deriving DecidableEq, Repr

/-- `_extract_competitive_insights`. The mention count used for the context
flag and the frequency is taken before the `[:5]` cap, as in the source. -/
def extractCompetitiveInsights (texts : List String) : CompetitiveResult :=
  let mentions := (texts.filter (fun t =>
    comparisonKeywords.any (fun w => strContains w (pyLower t)))).map truncate100
  ⟨mentions.take 5, some (mentions.length > 0),
   some (if texts ≠ [] then (mentions.length : ℚ) / texts.length else 0)⟩

/-! ## `_generate_recommendations` -/

/-- One recommendation entry. -/
structure Recommendation : Type where
  type : String
  category : String
  action : String
  priority : String
  description : String
  deriving DecidableEq, Repr

/-- The negative-sentiment rule's entry. -/
def recNegativeSentiment : Recommendation :=
  ⟨"urgent", "customer_service", "Address negative sentiment immediately", "high",
   "Negative sentiment detected. Review customer complaints and implement improvements."⟩

/-- The complaint-intent rule's entry. -/
def recComplaint : Recommendation :=
  ⟨"reactive", "support", "Improve customer support response", "high",
   "High complaint volume detected. Enhance support processes."⟩

/-- The feature-request rule's entry. -/
def recFeatureRequest : Recommendation :=
  ⟨"strategic", "product_development", "Analyze feature requests for product roadmap", "medium",
   "Customer feature requests identified. Consider for product development."⟩

/-- The low-engagement rule's entry. -/
def recLowEngagement : Recommendation :=
  ⟨"strategic", "content_strategy", "Improve content engagement strategy", "medium",
   "Low engagement detected. Review content strategy and posting times."⟩

/-- `_generate_recommendations`, reading the already-computed signals. -/
def generateRecommendations (bs : BasicSentimentResult) (intent : IntentResult)
    (eng : EngagementResult) : List Recommendation :=
  (if bs.sentiment = "negative" then [recNegativeSentiment] else [])
    ++ (if intent.primaryIntent = "complaint" then [recComplaint]
        else if intent.primaryIntent = "feature_request" then [recFeatureRequest]
        else [])
    ++ (match eng with
        | .noData => []
        | .data _ _ _ _ rate _ => if rate = "low" then [recLowEngagement] else [])

/-! ## `comprehensive_analysis` and `_empty_analysis_result` -/

/-- The full analysis bundle. -/
structure AnalysisResult : Type where
  basicSentiment : BasicSentimentResult
  emotionAnalysis : EmotionResult
  topicAnalysis : TopicResult
  aspectSentiment : List (String × AspectEntry)
  intentAnalysis : IntentResult
  businessInsights : BusinessInsights
  temporalAnalysis : TemporalResult
  engagementAnalysis : EngagementResult
  contentQuality : QualityResult
  competitiveIntelligence : CompetitiveResult
  actionableRecommendations : List Recommendation

/-- `_empty_analysis_result`. -/
noncomputable def emptyAnalysisResult : AnalysisResult :=
  { basicSentiment := ⟨"neutral", 0, 0, none, none⟩
    emotionAnalysis := ⟨[], [], none, none⟩
    topicAnalysis := ⟨[], 0, none⟩
    aspectSentiment := []
    intentAnalysis := ⟨"unknown", 0, none, none⟩
    businessInsights := ⟨[], [], none, none, none⟩
    temporalAnalysis := .noData
    engagementAnalysis := .noData
    contentQuality := ⟨0, none⟩
    competitiveIntelligence := ⟨[], none, none⟩
    actionableRecommendations := [] }

/-- `comprehensive_analysis`: empty extracted text returns the sentinel; any
exception inside the pipeline (the engagement TypeError is the one reachable
raise) is caught by the top-level handler and also yields the sentinel. -/
noncomputable def comprehensiveAnalysis (contentList : List Record)
    (platform : Option String) : AnalysisResult :=
  let texts := extractTexts contentList
  if texts = [] then emptyAnalysisResult
  else
    match analyzeEngagementPatterns contentList platform with
    | .error _ => emptyAnalysisResult
    | .ok eng =>
      let bs := analyzeBasicSentiment texts
      let intent := analyzeIntent texts
      { basicSentiment := bs
        emotionAnalysis := analyzeEmotions texts
        topicAnalysis := extractTopics texts
        aspectSentiment := analyzeAspectSentiment texts
        intentAnalysis := intent
        businessInsights := generateBusinessInsights texts contentList
        temporalAnalysis := analyzeTemporalPatterns contentList
        engagementAnalysis := eng
        contentQuality := assessContentQuality texts
        competitiveIntelligence := extractCompetitiveInsights texts
        actionableRecommendations := generateRecommendations bs intent eng }

end Analyzer

/-! ## LLMCache

Python dicts keyed by the md5 hex digest of `f"{model}:{prompt}"` are
embedded as insertion-ordered association lists. The md5 digest is modelled
as the hashed content string itself (md5 is deterministic, so equal inputs
give equal keys; collisions are not modelled). Timestamps (`time.time()`
floats) are embedded as integers. Python raises are `.error ()`:
`KeyError` when `self.timestamps[key]` is missing, `ValueError` when
`min()` is taken over an empty dict.
-/

/-- Lookup in an insertion-ordered dict (first entry with the key). -/
def getKey? {V : Type} (l : List (String × V)) (k : String) : Option V :=
  (l.find? (fun p => p.1 = k)).map (·.2)

/-- Dict assignment `d[k] = v`: update in place when the key exists
(keeping its position), else append. -/
def setKey {V : Type} (l : List (String × V)) (k : String) (v : V) :
    List (String × V) :=
  if (l.find? (fun p => p.1 = k)).isSome then
    l.map (fun p => if p.1 = k then (k, v) else p)
  else l ++ [(k, v)]

/-- Dict deletion `del d[k]`. -/
def eraseKey {V : Type} (l : List (String × V)) (k : String) :
    List (String × V) :=
  l.filter (fun p => p.1 ≠ k)

/-- `min(self.timestamps.keys(), key=lambda k: self.timestamps[k])`:
the first key of minimal timestamp in iteration (= insertion) order;
`none` for the empty dict (Python would raise ValueError). -/
def minTsKey (l : List (String × ℤ)) : Option String :=
  (l.foldl (fun acc p =>
    match acc with
    | none => some p
    | some q => if p.2 < q.2 then some p else some q) none).map (·.1)

/-- `LLMCache.__init__` state. -/
structure LLMCache (V : Type) : Type where
  cache : List (String × V)
  timestamps : List (String × ℤ)
  max_size : ℕ
  ttl : ℤ
  deriving DecidableEq, Repr

/-- `LLMCache._generate_key`: md5 modelled as the content string itself. -/
def genKey (prompt model : String) : String := ⟨model.data ++ [':'] ++ prompt.data⟩

/-- `LLMCache.get`: a valid hit returns the value with the state unchanged;
an expired entry is deleted from both dicts and the call misses. -/
def LLMCache.get {V : Type} (st : LLMCache V) (now : ℤ) (prompt model : String) :
    Except Unit (Option V × LLMCache V) :=
  let key := genKey prompt model
  match getKey? st.cache key with
  | none => .ok (none, st)
  | some v =>
    match getKey? st.timestamps key with
    | none => .error ()
    | some ts =>
      if now - ts < st.ttl then .ok (some v, st)
      else .ok (none,
        { st with cache := eraseKey st.cache key,
                  timestamps := eraseKey st.timestamps key })

/-- `LLMCache.set`: when the cache is at (or over) capacity, the single
oldest-inserted entry (minimal stored timestamp) is evicted before the
assignment — also when the assigned key already exists. -/
def LLMCache.set {V : Type} (st : LLMCache V) (now : ℤ) (prompt model : String)
    (v : V) : Except Unit (LLMCache V) :=
  let key := genKey prompt model
  if st.max_size ≤ st.cache.length then
    match minTsKey st.timestamps with
    | none => .error ()
    | some oldest =>
      .ok { st with
        cache := setKey (eraseKey st.cache oldest) key v,
        timestamps := setKey (eraseKey st.timestamps oldest) key now }
  else
    .ok { st with
      cache := setKey st.cache key v,
      timestamps := setKey st.timestamps key now }

/-- A fresh cache with the constructor's default arguments
(`max_size=100`, `ttl_seconds=3600`), as the global `llm_cache`. -/
def llmCacheInit (V : Type) : LLMCache V := ⟨[], [], 100, 3600⟩

/-- One cache operation, for reasoning about operation sequences. -/
inductive CacheOp (V : Type) : Type
  | get (now : ℤ) (prompt model : String)
  | set (now : ℤ) (prompt model : String) (v : V)

/-- Run a sequence of cache operations, threading the state. -/
def runOps {V : Type} (st : LLMCache V) (ops : List (CacheOp V)) :
    Except Unit (LLMCache V) :=
  ops.foldlM (fun s op =>
    match op with
    | .get now p m => (s.get now p m).map (·.2)
    | .set now p m v => s.set now p m v) st

/-- One insertion for the eviction scenario. -/
structure CacheIns (V : Type) : Type where
  prompt : String
  model : String
  t : ℤ
  v : V
  deriving DecidableEq, Repr

/-- The key of an insertion. -/
def CacheIns.key {V : Type} (i : CacheIns V) : String := genKey i.prompt i.model

/-- Perform a list of insertions with `LLMCache.set`. -/
def setAll {V : Type} (st : LLMCache V) (items : List (CacheIns V)) :
    Except Unit (LLMCache V) :=
  items.foldlM (fun s i => s.set i.t i.prompt i.model i.v) st

/-- The `LLMCache` representation invariant: the value dict and the
timestamp dict hold exactly the same keys in the same order, and the value
dict never exceeds the capacity. -/
def CacheInv {V : Type} (st : LLMCache V) : Prop :=
  st.timestamps.map Prod.fst = st.cache.map Prod.fst ∧
  st.cache.length ≤ st.max_size

/-! ## `retry_on_failure` -/

/-- Observable behaviour of one call to a `retry_on_failure`-wrapped
function: the outcome (`.error none` would be Python's `raise None` when
`max_retries == 0`), the number of invocations of the wrapped function, and
the list of sleep durations in order. -/
structure RetryTrace (E A : Type) : Type where
  result : Except (Option E) A
  calls : ℕ
  sleeps : List ℚ

/-- The loop of `retry_on_failure`'s wrapper. `f n` is the outcome of the
`n`-th (0-indexed) invocation of the wrapped function. After a failure the
wrapper sleeps `delay * (attempt + 1)` unless the attempt was the last. -/
def retryGo {E A : Type} (f : ℕ → Except E A) (delay : ℚ) (maxRetries : ℕ) :
    ℕ → Option E → ℕ → List ℚ → RetryTrace E A
  | attempt, lastExc, calls, sleeps =>
    if h : attempt < maxRetries then
      match f attempt with
      | .ok a => ⟨.ok a, calls + 1, sleeps⟩
      | .error e =>
        if attempt < maxRetries - 1 then
          retryGo f delay maxRetries (attempt + 1) (some e) (calls + 1)
            (sleeps ++ [delay * ((attempt : ℚ) + 1)])
        else
          retryGo f delay maxRetries (attempt + 1) (some e) (calls + 1) sleeps
    else ⟨.error lastExc, calls, sleeps⟩
  termination_by attempt => maxRetries - attempt

/-- Calling the wrapper produced by `retry_on_failure(max_retries, delay)`. -/
def retryOnFailureRun {E A : Type} (maxRetries : ℕ) (delay : ℚ)
    (f : ℕ → Except E A) : RetryTrace E A :=
  retryGo f delay maxRetries 0 none 0 []

/-! ## `LLMService` -/

/-- A parsed JSON-object response body: field name to string value.
Python truthiness of the dict is nonemptiness. -/
abbrev Response : Type := List (String × String)

/-- Field access on a response object. -/
def Response.lookup (r : Response) (k : String) : Option String :=
  (r.find? (fun p => p.1 = k)).map (·.2)

/-- Result dict of `analyze_sentiment` (and of its fallback): the shape the
code constructs on the no-text and fallback paths, and the shape the LLM is
instructed to return. -/
structure SentCounts : Type where
  positive : ℤ
  negative : ℤ
  neutral : ℤ
  deriving DecidableEq, Repr

/-- The four-field sentiment dictionary. -/
structure SentDict : Type where
  sentiment : String
  confidence : ℚ
  themes : List String
  counts : SentCounts
  deriving DecidableEq, Repr

/-- The positive lexicon of `_fallback_sentiment_analysis` (distinct from
the analyzer's). -/
def fbPositiveWords : List String :=
  ["good", "great", "excellent", "amazing", "love", "best", "fantastic", "awesome"]

/-- The negative lexicon of `_fallback_sentiment_analysis`. -/
def fbNegativeWords : List String :=
  ["bad", "terrible", "awful", "hate", "worst", "horrible", "disappointing"]

/-- `pos_score` of one text in the fallback. -/
def fbPos (t : String) : ℕ :=
  (fbPositiveWords.filter (fun w => strContains w (pyLower t))).length

/-- `neg_score` of one text in the fallback. -/
def fbNeg (t : String) : ℕ :=
  (fbNegativeWords.filter (fun w => strContains w (pyLower t))).length

/-- `_fallback_sentiment_analysis`. On the empty list the neutral branch
computes `confidence = neutral_count / total` with `total == 0`:
ZeroDivisionError, modelled as `.error ()`. -/
def fallbackSentimentAnalysis (texts : List String) : Except Unit SentDict :=
  let posCnt := (texts.filter (fun t => fbNeg t < fbPos t)).length
  let negCnt := (texts.filter (fun t => fbPos t < fbNeg t)).length
  let neutralCnt : ℤ := (texts.length : ℤ) - posCnt - negCnt
  let total := texts.length
  if max (negCnt : ℤ) neutralCnt < (posCnt : ℤ) then
    .ok ⟨"positive", round2 ((posCnt : ℚ) / total), ["automated_analysis"],
      ⟨posCnt, negCnt, neutralCnt⟩⟩
  else if max (posCnt : ℤ) neutralCnt < (negCnt : ℤ) then
    .ok ⟨"negative", round2 ((negCnt : ℚ) / total), ["automated_analysis"],
      ⟨posCnt, negCnt, neutralCnt⟩⟩
  else if total = 0 then .error ()
  else
    .ok ⟨"neutral", round2 ((neutralCnt : ℚ) / total), ["automated_analysis"],
      ⟨posCnt, negCnt, neutralCnt⟩⟩

/-- `clean_texts = [text.strip()[:200] for text in texts if text.strip()][:20]`. -/
def cleanTexts (texts : List String) : List String :=
  ((texts.filter (fun t => (pyStrip t).data ≠ [])).map
    (fun t => pyTake (pyStrip t) 200)).take 20

/-- `analyze_sentiment`. The outcome of the retry-wrapped
`_generate_response(prompt)` call is the parameter `llm` (`.error ()` when it
raises after exhausting its retries); `parse` is the outcome of
`json.loads` on the `response` field (`none` when parsing fails, in which
case the code falls back). Exceptions raised by the fallback itself escape
to the caller (a fallback ZeroDivisionError inside the try block is caught
once by the outer handler, whose own fallback call raises it again). -/
def analyzeSentiment (parse : String → Option SentDict)
    (llm : Except Unit Response) (texts : List String) : Except Unit SentDict :=
  if texts = [] then .ok ⟨"neutral", 0, [], ⟨0, 0, 0⟩⟩
  else
    let clean := cleanTexts texts
    match llm with
    | .error _ => fallbackSentimentAnalysis clean
    | .ok resp =>
      match resp.lookup "response" with
      | none => fallbackSentimentAnalysis clean
      | some raw =>
        match parse raw with
        | some d => .ok d
        | none => fallbackSentimentAnalysis clean

/-! ## `_truncate_data` -/

/-- Normalise a Python slice index to `[0, len]`. -/
def pyIdx (len : ℕ) (i : ℤ) : ℕ :=
  (max 0 (min (if i < 0 then i + len else i) (len : ℤ))).toNat

/-- Python `l[a:b]`. -/
def pySlice {α : Type} (l : List α) (a b : ℤ) : List α :=
  (l.take (pyIdx l.length b)).drop (pyIdx l.length a)

/-- `_truncate_data`. Python `//` is floor division (`Int.fdiv`), so
`-sample_size//3` is `(-sample_size).fdiv 3`. -/
def truncateData {α : Type} (data : List α) (maxItems : ℕ) : List α :=
  if data.length ≤ maxItems then data
  else
    let sampleSize : ℤ := maxItems
    if 10 ≤ sampleSize then
      let firstChunk := pySlice data 0 (sampleSize.fdiv 3)
      let middleStart := (data.length : ℤ).fdiv 2 - sampleSize.fdiv 6
      let middleChunk := pySlice data middleStart (middleStart + sampleSize.fdiv 3)
      let lastChunk := pySlice data ((-sampleSize).fdiv 3) data.length
      firstChunk ++ middleChunk ++ lastChunk
    else pySlice data 0 sampleSize

/-! ## `_generate_response` -/

/-- Behaviour of the one `requests.post` transport call a cache-missing
`_generate_response` issues: either a transport-level exception
(timeout / connection error / unparseable 200 body — all re-raised as
`Exception` to the retry wrapper) or an HTTP reply with a status code and a
parsed JSON body. -/
inductive TransportReply : Type
  | raises
  | replies (status : ℕ) (body : Response)

/-- Observable outcome of one (undecorated) `_generate_response` body run:
the returned value, the cache state afterwards, and whether the HTTP
transport was invoked. -/
structure GenResult : Type where
  response : Response
  state : LLMCache Response
  transportCalled : Bool
  deriving DecidableEq, Repr

/-- The truncation notice appended to over-long prompts. -/
def truncationNotice : String := "...\n\nProvide analysis based on available data."

/-- The post-cache-miss part of `_generate_response`: an over-long prompt is
reassigned to its truncation, the transport is invoked, and on HTTP 200 the
response is cached under the reassigned prompt. A non-200 status returns an
in-band error dict without caching. -/
def generateResponseMiss (st1 : LLMCache Response) (maxPromptLength : ℕ)
    (modelName : String) (now : ℤ) (tb : TransportReply) (prompt : String) :
    Except Unit GenResult :=
  let prompt1 := if maxPromptLength < pyLen prompt
    then pyTake prompt maxPromptLength ++ truncationNotice else prompt
  match tb with
  | .raises => .error ()
  | .replies status body =>
    if status = 200 then
      match st1.set now prompt1 modelName body with
      | .error _ => .error ()
      | .ok st2 => .ok ⟨body, st2, true⟩
    else .ok ⟨[("error", "LLM API error")], st1, true⟩

/-- `_generate_response` (one call at time `now`, transport behaviour `tb`).
The cache is consulted with the caller's prompt; Python's
`if cached_response:` treats a cached falsy (empty-dict) value as a miss
and proceeds to the transport path. -/
def generateResponse (st : LLMCache Response) (maxPromptLength : ℕ)
    (modelName : String) (now : ℤ) (tb : TransportReply) (prompt : String) :
    Except Unit GenResult :=
  match st.get now prompt modelName with
  | .error _ => .error ()
  | .ok (cached, st1) =>
    match cached with
    | some c =>
      if c.isEmpty then generateResponseMiss st1 maxPromptLength modelName now tb prompt
      else .ok ⟨c, st1, false⟩
    | none => generateResponseMiss st1 maxPromptLength modelName now tb prompt

/-! # Helper lemmas -/

/-- Unfolding of `Except.bind` on a success value. -/
theorem exceptBind_ok {ε α β : Type} (a : α) (f : α → Except ε β) :
    Except.bind (Except.ok a) f = f a := rfl

/-- An indexed element is a member. -/
theorem mem_of_getElem?_some {α : Type} {l : List α} {n : ℕ} {a : α}
    (h : l[n]? = some a) : a ∈ l := by
  have hn : n < l.length := by
    by_contra hc
    rw [List.getElem?_eq_none (by omega)] at h
    exact Option.noConfusion h
  rw [List.getElem?_eq_getElem hn] at h
  cases h
  exact List.getElem_mem hn

/-- Banker's rounding never climbs above an integer bound. -/
theorem roundHalfEven_le_intCast {α : Type} [LinearOrderedField α] [FloorRing α]
    {x : α} {n : ℤ} (h : x ≤ n) : roundHalfEven x ≤ n := by
  have hf : ⌊x⌋ ≤ n := by
    have h2 := Int.floor_le_floor h
    rwa [Int.floor_intCast] at h2
  have hfx : (⌊x⌋ : α) ≤ x := Int.floor_le x
  unfold roundHalfEven
  split_ifs with h1 h2 h3
  · exact hf
  · have hlt : (⌊x⌋ : α) < (n : α) := by
      have : (⌊x⌋ : α) < x := by linarith
      linarith
    have : ⌊x⌋ < n := by exact_mod_cast hlt
    omega
  · exact hf
  · have hx : x - ⌊x⌋ = 1/2 := le_antisymm (not_lt.mp h2) (not_lt.mp h1)
    have hlt : (⌊x⌋ : α) < (n : α) := by
      have : (⌊x⌋ : α) < x := by
        have h2' : (0:α) < 1/2 := by norm_num
        linarith
      linarith
    have : ⌊x⌋ < n := by exact_mod_cast hlt
    omega

/-- `round(x, 2)` never climbs above 1. -/
theorem round2_le_one {α : Type} [LinearOrderedField α] [FloorRing α]
    {x : α} (h : x ≤ 1) : round2 x ≤ 1 := by
  have hr : roundHalfEven (100 * x) ≤ 100 :=
    roundHalfEven_le_intCast (by push_cast; linarith)
  unfold round2
  rw [div_le_one (by norm_num)]
  exact_mod_cast hr

/-- The sum of a constant list. -/
theorem sum_of_const {c : ℚ} :
    ∀ l : List ℚ, (∀ x ∈ l, x = c) → l.sum = c * l.length := by
  intro l hall
  induction l with
  | nil => simp
  | cons a rest ih =>
    have ha : a = c := hall a (List.mem_cons_self a rest)
    have hr := ih (fun x hx => hall x (List.mem_cons_of_mem a hx))
    simp only [List.sum_cons, ha, hr, List.length_cons]
    push_cast
    ring

/-- The mean of a nonempty constant list is the constant. -/
theorem mean_of_const {c : ℚ} :
    ∀ l : List ℚ, l ≠ [] → (∀ x ∈ l, x = c) → mean l = c := by
  intro l hne hall
  unfold mean
  rw [sum_of_const l hall]
  have hlen : (l.length : ℚ) ≠ 0 := by
    have := List.length_pos.mpr hne
    positivity
  field_simp

/-! # Claims -/

/-- C9: for a 90-record input and a cap of 30, `_truncate_data` returns
the concatenation of the first ten records, records 40–49, and the last
ten records. -/
theorem truncateData_90_30_eq {α : Type} (data : List α) (h : data.length = 90) :
    truncateData data 30 =
      data.take 10 ++ (data.take 50).drop 40 ++ data.drop 80 := by
  have h1 : ((30:ℤ)).fdiv 3 = 10 := by decide
  have h2 : ((90:ℤ)).fdiv 2 = 45 := by decide
  have h3 : ((30:ℤ)).fdiv 6 = 5 := by decide
  have h4 : ((-30:ℤ)).fdiv 3 = -10 := by decide
  unfold truncateData pySlice
  rw [h, if_neg (by norm_num), if_pos (by norm_num)]
  simp only [Nat.cast_ofNat, h1, h2, h3, h4,
    show (45:ℤ) - 5 = 40 from by norm_num,
    show (40:ℤ) + 10 = 50 from by norm_num,
    show pyIdx 90 0 = 0 from by decide, show pyIdx 90 10 = 10 from by decide,
    show pyIdx 90 40 = 40 from by decide, show pyIdx 90 50 = 50 from by decide,
    show pyIdx 90 (-10) = 80 from by decide, show pyIdx 90 90 = 90 from by decide,
    List.drop_zero]
  rw [← h, List.take_length]

/-- C9: for every input list of exactly 90 records and a cap of 30,
`_truncate_data` returns exactly 30 records, including the first record
(index 0), the last record (index 89), and a record of original index 40,
which lies strictly between 30 and 60. -/
theorem c9_truncation_sampling {α : Type} (data : List α) (h : data.length = 90) :
    (truncateData data 30).length = 30 ∧
    (∀ x, data[0]? = some x → x ∈ truncateData data 30) ∧
    (∀ x, data[89]? = some x → x ∈ truncateData data 30) ∧
    (∃ i, 30 < i ∧ i < 60 ∧ ∃ x, data[i]? = some x ∧ x ∈ truncateData data 30) := by
  rw [truncateData_90_30_eq data h]
  refine ⟨?_, ?_, ?_, ?_⟩
  · simp [List.length_take, List.length_drop, h]
  · intro x hx
    have hx' : (data.take 10)[0]? = some x := by
      rw [List.getElem?_take, if_pos (by norm_num)]; exact hx
    exact List.mem_append_left _ (List.mem_append_left _ (mem_of_getElem?_some hx'))
  · intro x hx
    have hx' : (data.drop 80)[9]? = some x := by
      rw [List.getElem?_drop]; exact hx
    exact List.mem_append_right _ (mem_of_getElem?_some hx')
  · refine ⟨40, by norm_num, by norm_num, ?_⟩
    have h40 : 40 < data.length := by omega
    refine ⟨data[40], List.getElem?_eq_getElem h40, ?_⟩
    have hx' : ((data.take 50).drop 40)[0]? = some data[40] := by
      rw [List.getElem?_drop, List.getElem?_take, if_pos (by norm_num)]
      exact List.getElem?_eq_getElem h40
    exact List.mem_append_left _ (List.mem_append_right _ (mem_of_getElem?_some hx'))

/-- C9 witness: the sampling property at the concrete input `List.range 90`. -/
theorem c9_truncation_sampling_witness :
    (List.range 90).length = 90 ∧
    ((truncateData (List.range 90) 30).length = 30 ∧
    (∀ x, (List.range 90)[0]? = some x → x ∈ truncateData (List.range 90) 30) ∧
    (∀ x, (List.range 90)[89]? = some x → x ∈ truncateData (List.range 90) 30) ∧
    (∃ i, 30 < i ∧ i < 60 ∧
      ∃ x, (List.range 90)[i]? = some x ∧ x ∈ truncateData (List.range 90) 30)) :=
  ⟨List.length_range 90, c9_truncation_sampling (List.range 90) (List.length_range 90)⟩

/-- The retry loop when every invocation fails: one invocation per remaining
attempt, a sleep of `delay * (attempt+1)` after every failure except the
last, and the exception of the final attempt as the outcome. -/
theorem retryGo_allFail {E A : Type} (e : ℕ → E) (d : ℚ) (mr : ℕ) :
    ∀ attempt lastExc calls sleeps, attempt ≤ mr →
    retryGo (fun i => (.error (e i) : Except E A)) d mr attempt lastExc calls sleeps =
      ⟨.error (if attempt < mr then some (e (mr - 1)) else lastExc),
       calls + (mr - attempt),
       sleeps ++ (List.range' attempt (mr - 1 - attempt)).map
         (fun (i : ℕ) => d * ((i : ℚ) + 1))⟩ := by
  intro attempt
  generalize hk : mr - attempt = k
  induction k generalizing attempt with
  | zero =>
    intro lastExc calls sleeps hle
    rw [retryGo]
    rw [dif_neg (by omega : ¬attempt < mr)]
    rw [if_neg (by omega : ¬attempt < mr)]
    rw [RetryTrace.mk.injEq]
    refine ⟨rfl, by omega, ?_⟩
    rw [show mr - 1 - attempt = 0 from by omega]
    simp
  | succ k ih =>
    intro lastExc calls sleeps hle
    have hlt : attempt < mr := by omega
    rw [retryGo]
    simp only [dif_pos hlt]
    by_cases hlast : attempt < mr - 1
    · rw [if_pos hlast]
      rw [ih (attempt + 1) (by omega) (some (e attempt)) (calls + 1)
        (sleeps ++ [d * ((attempt : ℚ) + 1)]) (by omega)]
      have h1 : attempt + 1 < mr := by omega
      have h2 : mr - 1 - attempt = (mr - 1 - (attempt + 1)) + 1 := by omega
      rw [if_pos h1, if_pos hlt, h2, List.range'_succ]
      rw [RetryTrace.mk.injEq]
      refine ⟨rfl, by omega, by simp⟩
    · rw [if_neg hlast]
      have heq : attempt = mr - 1 := by omega
      rw [ih (attempt + 1) (by omega) (some (e attempt)) (calls + 1) sleeps
        (by omega)]
      have h1 : ¬(attempt + 1 < mr) := by omega
      have h2 : mr - 1 - attempt = 0 := by omega
      rw [if_neg h1, if_pos hlt, h2, show mr - 1 - (attempt + 1) = 0 from by omega]
      rw [RetryTrace.mk.injEq]
      refine ⟨by rw [heq], by omega, by simp⟩

/-- C4: a function wrapped by `retry_on_failure(max_retries, delay)` that
raises on every invocation is invoked exactly `max_retries` times, the
wrapper sleeps `delay * attempt_number` (1-indexed) after every failed
attempt except the last, and the exception of the final attempt is
re-raised unchanged. -/
theorem c4_retry_bound {E A : Type} (mr : ℕ) (d : ℚ) (e : ℕ → E) (h : 1 ≤ mr) :
    retryOnFailureRun mr d (fun i => (.error (e i) : Except E A)) =
      ⟨.error (some (e (mr - 1))), mr,
       (List.range (mr - 1)).map (fun (i : ℕ) => d * ((i : ℚ) + 1))⟩ := by
  unfold retryOnFailureRun
  rw [retryGo_allFail e d mr 0 none 0 [] (by omega)]
  rw [if_pos (by omega)]
  simp [List.range_eq_range']

/-- C4 witness: `max_retries = 3`, `delay = 2`, always-failing call:
three invocations, sleeps `[2, 4]`, final exception re-raised. -/
theorem c4_retry_bound_witness :
    1 ≤ 3 ∧
    retryOnFailureRun 3 (2:ℚ) (fun i => (.error i : Except ℕ Unit)) =
      ⟨.error (some 2), 3, [2, 4]⟩ := by
  refine ⟨by norm_num, ?_⟩
  rw [c4_retry_bound 3 (2:ℚ) (fun i => i) (by norm_num)]
  rw [RetryTrace.mk.injEq]
  refine ⟨rfl, rfl, ?_⟩
  rw [show (3:ℕ) - 1 = 2 from rfl, show List.range 2 = [0, 1] from rfl]
  norm_num

/-- Projections of `_analyze_basic_sentiment` on nonempty input. -/
theorem analyzeBasicSentiment_eq (texts : List String) (hne : texts ≠ []) :
    Analyzer.analyzeBasicSentiment texts =
      ⟨Analyzer.sentimentLabelOf (Analyzer.avgScoreOf texts),
       round2 (1 - Analyzer.stdevUsed (Analyzer.scoresOf texts)),
       round2 |Analyzer.avgScoreOf texts|,
       some (round2 (Analyzer.avgScoreOf texts)),
       some (Analyzer.distributionOf (Analyzer.scoresOf texts))⟩ := by
  unfold Analyzer.analyzeBasicSentiment
  rw [if_neg hne]

/-- The `score` field on nonempty input. -/
theorem analyzeBasicSentiment_score (texts : List String) (hne : texts ≠ []) :
    (Analyzer.analyzeBasicSentiment texts).score
      = some (round2 (Analyzer.avgScoreOf texts)) := by
  rw [analyzeBasicSentiment_eq texts hne]

/-- The `sentiment` field on nonempty input. -/
theorem analyzeBasicSentiment_sentiment (texts : List String) (hne : texts ≠ []) :
    (Analyzer.analyzeBasicSentiment texts).sentiment
      = Analyzer.sentimentLabelOf (Analyzer.avgScoreOf texts) := by
  rw [analyzeBasicSentiment_eq texts hne]

/-- The `confidence` field on nonempty input. -/
theorem analyzeBasicSentiment_confidence (texts : List String) (hne : texts ≠ []) :
    (Analyzer.analyzeBasicSentiment texts).confidence
      = round2 (1 - Analyzer.stdevUsed (Analyzer.scoresOf texts)) := by
  rw [analyzeBasicSentiment_eq texts hne]

/-- Banker's rounding is the identity on integers. -/
theorem roundHalfEven_intCast {α : Type} [LinearOrderedField α] [FloorRing α]
    (n : ℤ) : roundHalfEven ((n : α)) = n := by
  unfold roundHalfEven
  rw [Int.floor_intCast, sub_self]
  rw [if_pos (by norm_num)]

/-- `round(1, 2) = 1` in ℚ. -/
theorem round2_one : round2 (1:ℚ) = 1 := by
  unfold round2
  rw [show (100:ℚ) * 1 = ((100:ℤ) : ℚ) from by norm_num, roundHalfEven_intCast]
  norm_num

/-- `round(-1, 2) = -1` in ℚ. -/
theorem round2_neg_one : round2 (-1:ℚ) = -1 := by
  unfold round2
  rw [show (100:ℚ) * (-1) = ((-100:ℤ) : ℚ) from by norm_num, roundHalfEven_intCast]
  norm_num

/-- `round(0, 2) = 0` in ℚ. -/
theorem round2_zero : round2 (0:ℚ) = 0 := by
  unfold round2
  rw [show (100:ℚ) * 0 = ((0:ℤ) : ℚ) from by norm_num, roundHalfEven_intCast]
  norm_num

/-- The aggregate score of a batch whose per-text scores are all `c` is `c`. -/
theorem avgScoreOf_of_const (texts : List String) (c : ℚ) (hne : texts ≠ [])
    (h : ∀ t ∈ texts, Analyzer.textSentimentScore t = c) :
    Analyzer.avgScoreOf texts = c := by
  unfold Analyzer.avgScoreOf
  have hm : Analyzer.scoresOf texts ≠ [] := by
    unfold Analyzer.scoresOf
    simpa using hne
  rw [if_neg hm]
  refine mean_of_const _ hm ?_
  intro x hx
  obtain ⟨t, ht, rfl⟩ := List.mem_map.mp hx
  exact h t ht

/-- C6: per-text lexicon-hit profiles force the aggregate score and label:
one positive hit and no negative hit in每 text gives score 1 and label
"positive"; the symmetric profile gives -1 and "negative"; no hits at all
give 0 and "neutral". -/
theorem c6_sentiment_boundary (texts : List String) (hne : texts ≠ []) :
    ((∀ t ∈ texts, Analyzer.posCount t = 1 ∧ Analyzer.negCount t = 0) →
      (Analyzer.analyzeBasicSentiment texts).score = some 1 ∧
      (Analyzer.analyzeBasicSentiment texts).sentiment = "positive") ∧
    ((∀ t ∈ texts, Analyzer.posCount t = 0 ∧ Analyzer.negCount t = 1) →
      (Analyzer.analyzeBasicSentiment texts).score = some (-1) ∧
      (Analyzer.analyzeBasicSentiment texts).sentiment = "negative") ∧
    ((∀ t ∈ texts, Analyzer.posCount t = 0 ∧ Analyzer.negCount t = 0) →
      (Analyzer.analyzeBasicSentiment texts).score = some 0 ∧
      (Analyzer.analyzeBasicSentiment texts).sentiment = "neutral") := by
  refine ⟨fun hall => ?_, fun hall => ?_, fun hall => ?_⟩
  · have havg : Analyzer.avgScoreOf texts = 1 := by
      refine avgScoreOf_of_const texts 1 hne fun t ht => ?_
      obtain ⟨hp, hn⟩ := hall t ht
      unfold Analyzer.textSentimentScore
      rw [hp, hn]
      norm_num
    rw [analyzeBasicSentiment_score texts hne,
      analyzeBasicSentiment_sentiment texts hne, havg, round2_one]
    refine ⟨rfl, ?_⟩
    unfold Analyzer.sentimentLabelOf
    rw [if_pos (by norm_num)]
  · have havg : Analyzer.avgScoreOf texts = -1 := by
      refine avgScoreOf_of_const texts (-1) hne fun t ht => ?_
      obtain ⟨hp, hn⟩ := hall t ht
      unfold Analyzer.textSentimentScore
      rw [hp, hn]
      norm_num
    rw [analyzeBasicSentiment_score texts hne,
      analyzeBasicSentiment_sentiment texts hne, havg, round2_neg_one]
    refine ⟨rfl, ?_⟩
    unfold Analyzer.sentimentLabelOf
    rw [if_neg (by norm_num), if_pos (by norm_num)]
  · have havg : Analyzer.avgScoreOf texts = 0 := by
      refine avgScoreOf_of_const texts 0 hne fun t ht => ?_
      obtain ⟨hp, hn⟩ := hall t ht
      unfold Analyzer.textSentimentScore
      rw [hp, hn]
      norm_num
    rw [analyzeBasicSentiment_score texts hne,
      analyzeBasicSentiment_sentiment texts hne, havg, round2_zero]
    refine ⟨rfl, ?_⟩
    unfold Analyzer.sentimentLabelOf
    rw [if_neg (by norm_num), if_neg (by norm_num)]

/-- C6 witness: the three profiles on the concrete batches `["good"]`,
`["bad"]` and `["hello"]`. -/
theorem c6_sentiment_boundary_witness :
    ((Analyzer.analyzeBasicSentiment ["good"]).score = some 1 ∧
      (Analyzer.analyzeBasicSentiment ["good"]).sentiment = "positive") ∧
    ((Analyzer.analyzeBasicSentiment ["bad"]).score = some (-1) ∧
      (Analyzer.analyzeBasicSentiment ["bad"]).sentiment = "negative") ∧
    ((Analyzer.analyzeBasicSentiment ["hello"]).score = some 0 ∧
      (Analyzer.analyzeBasicSentiment ["hello"]).sentiment = "neutral") :=
  ⟨(c6_sentiment_boundary ["good"] (by decide)).1 (by decide),
   (c6_sentiment_boundary ["bad"] (by decide)).2.1 (by decide),
   (c6_sentiment_boundary ["hello"] (by decide)).2.2 (by decide)⟩

/-- C8 counterexample: the claim asserts a quality score strictly above 1.0
exists, but `0.7 + min(richness*10, 0.3)` is at most `1.0` for every batch:
the claimed strict overshoot is impossible. -/
theorem c8_claim_false :
    ¬∃ texts : List String, texts ≠ [] ∧
      1 < (Analyzer.assessContentQuality texts).qualityScore := by
  rintro ⟨texts, hne, hgt⟩
  have hq : (Analyzer.assessContentQuality texts).qualityScore
      = round2 (Analyzer.qualityScoreRaw texts) := by
    unfold Analyzer.assessContentQuality
    rw [if_neg hne]
  have hraw : Analyzer.qualityScoreRaw texts ≤ 1 := by
    unfold Analyzer.qualityScoreRaw
    have h1 : (if Analyzer.readabilityOf texts = "good" then (7:ℚ)/10 else 2/5)
        ≤ 7/10 := by split <;> norm_num
    have h2 : min (Analyzer.contentRichness texts * 10) (3/10) ≤ (3:ℚ)/10 :=
      min_le_right _ _
    linarith
  have hle := round2_le_one hraw
  rw [hq] at hgt
  linarith

/-- C8 amended: the quality-score formula attains exactly 1.0 (its maximum)
on a suitable nonempty batch; it never exceeds 1.0. -/
theorem c8_quality_score_max :
    ∃ texts : List String, texts ≠ [] ∧
      (Analyzer.assessContentQuality texts).qualityScore = 1 := by
  refine ⟨["ab cd ef gh ij kl mn op qr st uv wx yz aa bb cc dd ee ff gg"],
    by decide, ?_⟩
  have hq : (Analyzer.assessContentQuality
        ["ab cd ef gh ij kl mn op qr st uv wx yz aa bb cc dd ee ff gg"]).qualityScore
      = round2 (Analyzer.qualityScoreRaw
        ["ab cd ef gh ij kl mn op qr st uv wx yz aa bb cc dd ee ff gg"]) := by
    unfold Analyzer.assessContentQuality
    rw [if_neg (by decide)]
  have hlen : Analyzer.averageLength
      ["ab cd ef gh ij kl mn op qr st uv wx yz aa bb cc dd ee ff gg"] = 59 := by
    unfold Analyzer.averageLength
    rw [show (["ab cd ef gh ij kl mn op qr st uv wx yz aa bb cc dd ee ff gg"].map
      pyLen).sum = 59 from by decide]
    norm_num
  have hread : Analyzer.readabilityOf
      ["ab cd ef gh ij kl mn op qr st uv wx yz aa bb cc dd ee ff gg"] = "good" := by
    unfold Analyzer.readabilityOf
    rw [hlen, if_pos (by norm_num)]
  have hrich : Analyzer.contentRichness
      ["ab cd ef gh ij kl mn op qr st uv wx yz aa bb cc dd ee ff gg"]
      = (20:ℚ)/59 := by
    unfold Analyzer.contentRichness
    rw [show (["ab cd ef gh ij kl mn op qr st uv wx yz aa bb cc dd ee ff gg"].map
      pyLen).sum = 59 from by decide]
    rw [if_pos (by norm_num)]
    rw [show ((pySplitWs (pyLower (joinWith " "
      ["ab cd ef gh ij kl mn op qr st uv wx yz aa bb cc dd ee ff gg"]))).dedup.length : ℕ)
      = 20 from by decide]
    norm_num
  have hraw : Analyzer.qualityScoreRaw
      ["ab cd ef gh ij kl mn op qr st uv wx yz aa bb cc dd ee ff gg"] = 1 := by
    unfold Analyzer.qualityScoreRaw
    rw [hread, hrich, if_pos rfl]
    rw [min_eq_right (by norm_num : (3:ℚ)/10 ≤ 20/59 * 10)]
    norm_num
  rw [hq, hraw, round2_one]

/-- C3 counterexample: on `["good", "bad"]` the per-text scores are `1` and
`-1`, the sample standard deviation is `√2 > 1`, and the returned confidence
`round(1 - √2, 2) = -0.41` is negative — outside `[0, 1]`. -/
theorem c3_claim_false :
    (Analyzer.analyzeBasicSentiment ["good", "bad"]).confidence < 0 := by
  rw [analyzeBasicSentiment_confidence ["good", "bad"] (by decide)]
  have hs : Analyzer.scoresOf ["good", "bad"] = [1, -1] := by
    unfold Analyzer.scoresOf Analyzer.textSentimentScore
    simp only [List.map_cons, List.map_nil]
    rw [show Analyzer.posCount "good" = 1 from by decide,
        show Analyzer.negCount "good" = 0 from by decide,
        show Analyzer.posCount "bad" = 0 from by decide,
        show Analyzer.negCount "bad" = 1 from by decide]
    norm_num
  have hv : sampleVariance [1, -1] = 2 := by
    have hm : mean [1, -1] = 0 := by
      unfold mean
      norm_num
    unfold sampleVariance
    rw [hm]
    norm_num
  have hstd : Analyzer.stdevUsed (Analyzer.scoresOf ["good", "bad"])
      = Real.sqrt 2 := by
    rw [hs]
    unfold Analyzer.stdevUsed sampleStdev
    rw [if_pos (by norm_num), hv]
    norm_num
  rw [hstd]
  have hsq := Real.sq_sqrt (show (0:ℝ) ≤ 2 by norm_num)
  have hnn := Real.sqrt_nonneg 2
  have hs2l : (1.41 : ℝ) < Real.sqrt 2 := by nlinarith
  have hs2u : Real.sqrt 2 < 1.415 := by nlinarith
  have hfloor : ⌊(100:ℝ) * (1 - Real.sqrt 2)⌋ = -42 := by
    rw [Int.floor_eq_iff]
    constructor
    · push_cast
      nlinarith
    · push_cast
      nlinarith
  unfold round2 roundHalfEven
  rw [hfloor]
  rw [if_neg (by push_cast; nlinarith)]
  rw [if_pos (by push_cast; nlinarith)]
  norm_num

/-- C3 amended: the confidence from `_analyze_basic_sentiment` is at most 1
for every nonempty batch (it is 1 minus a nonnegative standard deviation,
rounded), but it is not bounded below by 0. -/
theorem c3_confidence_le_one (texts : List String) (hne : texts ≠ []) :
    (Analyzer.analyzeBasicSentiment texts).confidence ≤ 1 := by
  rw [analyzeBasicSentiment_confidence texts hne]
  apply round2_le_one
  have h0 : (0:ℝ) ≤ Analyzer.stdevUsed (Analyzer.scoresOf texts) := by
    unfold Analyzer.stdevUsed sampleStdev
    split
    · exact Real.sqrt_nonneg _
    · exact le_refl 0
  linarith

/-- C3 witness: the bound at the concrete batch `["good"]`. -/
theorem c3_confidence_le_one_witness :
    (["good"] : List String) ≠ [] ∧
    (Analyzer.analyzeBasicSentiment ["good"]).confidence ≤ 1 :=
  ⟨by decide, c3_confidence_le_one ["good"] (by decide)⟩

/-- Cleaned texts are nonempty when some text strips to something nonempty. -/
theorem cleanTexts_ne_nil (texts : List String)
    (h : ∃ t ∈ texts, (pyStrip t).data ≠ []) : cleanTexts texts ≠ [] := by
  obtain ⟨t, ht, hs⟩ := h
  unfold cleanTexts
  intro hnil
  rw [List.take_eq_nil_iff] at hnil
  rcases hnil with h20 | hmap
  · exact absurd h20 (by norm_num)
  · rw [List.map_eq_nil_iff] at hmap
    rw [List.filter_eq_nil_iff] at hmap
    have := hmap t ht
    simp only [decide_eq_true_eq] at this
    exact this hs

/-- The fallback sentiment analysis succeeds on every nonempty input. -/
theorem fallback_isOk (texts : List String) (h : texts ≠ []) :
    ∃ r, fallbackSentimentAnalysis texts = .ok r := by
  simp only [fallbackSentimentAnalysis]
  split_ifs with h1 h2 h3
  · exact ⟨_, rfl⟩
  · exact ⟨_, rfl⟩
  · exact absurd (List.length_eq_zero.mp h3) h
  · exact ⟨_, rfl⟩

/-- C1 amended: when at least one text is non-whitespace, a transport raise
(after retries) or an unparseable / field-less response makes
`analyze_sentiment` return exactly the fully-populated dictionary of
`_fallback_sentiment_analysis` on the cleaned texts — no exception. -/
theorem c1_fallback_guarantee (parse : String → Option SentDict)
    (llm : Except Unit Response) (texts : List String)
    (hne : ∃ t ∈ texts, (pyStrip t).data ≠ [])
    (hfail : llm = .error () ∨ ∃ resp, llm = .ok resp ∧
      (resp.lookup "response" = none ∨
        ∃ raw, resp.lookup "response" = some raw ∧ parse raw = none)) :
    ∃ r, fallbackSentimentAnalysis (cleanTexts texts) = .ok r ∧
      analyzeSentiment parse llm texts = .ok r := by
  have htne : texts ≠ [] := by
    rintro rfl
    obtain ⟨t, ht, _⟩ := hne
    cases ht
  obtain ⟨r, hr⟩ := fallback_isOk _ (cleanTexts_ne_nil texts hne)
  refine ⟨r, hr, ?_⟩
  rcases hfail with h | ⟨resp, hllm, hcase⟩
  · subst h
    simp only [analyzeSentiment, if_neg htne]
    exact hr
  · subst hllm
    rcases hcase with hl | ⟨raw, hlk, hp⟩
    · simp only [analyzeSentiment, if_neg htne, hl]
      exact hr
    · simp only [analyzeSentiment, if_neg htne, hlk, hp]
      exact hr

/-- C1 witness: one non-whitespace text, transport raising on every retry. -/
theorem c1_fallback_guarantee_witness :
    (∃ t ∈ (["good stuff"] : List String), (pyStrip t).data ≠ []) ∧
    ∃ r, fallbackSentimentAnalysis (cleanTexts ["good stuff"]) = .ok r ∧
      analyzeSentiment (fun _ => none) (.error ()) ["good stuff"] = .ok r :=
  ⟨by decide,
   c1_fallback_guarantee (fun _ => none) (.error ()) ["good stuff"]
     (by decide) (Or.inl rfl)⟩

/-- C1 counterexample: `["   "]` is a non-empty list of texts, yet with a
raising transport `analyze_sentiment` itself raises (the fallback divides
`neutral_count` by `total == 0` because every text is whitespace-only). -/
theorem c1_claim_false :
    ((["   "] : List String) ≠ []) ∧
    analyzeSentiment (fun _ => none) (.error ()) ["   "] = .error () := by
  exact ⟨by decide, rfl⟩

/-! ## Association-list lemmas for the cache -/

/-- A key is absent iff the lookup misses. -/
theorem getKey?_eq_none_iff {V : Type} (l : List (String × V)) (k : String) :
    getKey? l k = none ↔ k ∉ l.map Prod.fst := by
  simp only [getKey?, Option.map_eq_none', List.find?_eq_none, decide_eq_true_eq,
    List.mem_map]
  constructor
  · rintro h ⟨p, hp, rfl⟩
    exact h p hp rfl
  · intro h p hp hpk
    exact h ⟨p, hp, hpk⟩

/-- Assigning an absent key appends the pair. -/
theorem setKey_of_none {V : Type} (l : List (String × V)) (k : String) (v : V)
    (h : getKey? l k = none) : setKey l k v = l ++ [(k, v)] := by
  have hf : l.find? (fun p => p.1 = k) = none := by
    unfold getKey? at h
    exact Option.map_eq_none'.mp h
  unfold setKey
  rw [hf]
  simp

/-- `find?` on the in-place update finds the fresh pair. -/
theorem find?_setKeyMap {V : Type} (k : String) (v : V) :
    ∀ l : List (String × V), (l.find? (fun p => p.1 = k)).isSome →
      ((l.map (fun p => if p.1 = k then (k, v) else p)).find? (fun p => p.1 = k))
        = some (k, v) := by
  intro l
  induction l with
  | nil => intro h; simp at h
  | cons p rest ih =>
    intro h
    by_cases hp : p.1 = k
    · simp [List.find?_cons, hp]
    · have h2 : (rest.find? (fun p => p.1 = k)).isSome := by
        simpa [List.find?_cons, hp] using h
      simp only [List.map_cons, if_neg hp]
      rw [List.find?_cons_of_neg _ (by simpa using hp)]
      exact ih h2

/-- `find?` for a different key is unchanged by the in-place update. -/
theorem find?_setKeyMap_ne {V : Type} (k k' : String) (v : V) (hne : k' ≠ k) :
    ∀ l : List (String × V),
      ((l.map (fun p => if p.1 = k then (k, v) else p)).find? (fun p => p.1 = k'))
        = l.find? (fun p => p.1 = k') := by
  intro l
  induction l with
  | nil => rfl
  | cons p rest ih =>
    by_cases hp : p.1 = k
    · simp only [List.map_cons, if_pos hp]
      rw [List.find?_cons_of_neg _ (by simpa using (Ne.symm hne)),
          List.find?_cons_of_neg _ (by simp [hp]; exact fun hc => hne (hc ▸ hp ▸ rfl))]
      exact ih
    · simp only [List.map_cons, if_neg hp]
      by_cases hp' : p.1 = k'
      · rw [List.find?_cons_of_pos _ (by simpa using hp'),
            List.find?_cons_of_pos _ (by simpa using hp')]
      · rw [List.find?_cons_of_neg _ (by simpa using hp'),
            List.find?_cons_of_neg _ (by simpa using hp')]
        exact ih

/-- Lookup after assignment, same key. -/
theorem getKey?_setKey_self {V : Type} (l : List (String × V)) (k : String) (v : V) :
    getKey? (setKey l k v) k = some v := by
  unfold setKey
  by_cases hs : (l.find? (fun p => p.1 = k)).isSome
  · rw [if_pos hs]
    unfold getKey?
    rw [find?_setKeyMap k v l hs]
    rfl
  · rw [if_neg hs]
    unfold getKey?
    rw [List.find?_append]
    rw [Option.not_isSome_iff_eq_none.mp hs]
    simp

/-- Lookup after assignment, different key. -/
theorem getKey?_setKey_ne {V : Type} (l : List (String × V)) (k k' : String) (v : V)
    (h : k' ≠ k) : getKey? (setKey l k v) k' = getKey? l k' := by
  unfold setKey
  by_cases hs : (l.find? (fun p => p.1 = k)).isSome
  · rw [if_pos hs]
    unfold getKey?
    rw [find?_setKeyMap_ne k k' v h l]
  · rw [if_neg hs]
    unfold getKey?
    rw [List.find?_append]
    rw [show ([(k, v)].find? (fun p => p.1 = k')) = none from by
      rw [List.find?_cons_of_neg _ (by simpa using (Ne.symm h))]; rfl]
    rw [Option.or_none]

/-- Lookup after deletion, same key. -/
theorem getKey?_eraseKey_self {V : Type} (l : List (String × V)) (k : String) :
    getKey? (eraseKey l k) k = none := by
  rw [getKey?_eq_none_iff]
  intro hmem
  simp only [eraseKey, List.mem_map, List.mem_filter] at hmem
  obtain ⟨p, ⟨_, hne⟩, hk⟩ := hmem
  simp only [decide_eq_true_eq] at hne
  exact hne hk

/-- Lookup after deletion, different key. -/
theorem getKey?_eraseKey_ne {V : Type} (l : List (String × V)) (k k' : String)
    (h : k' ≠ k) : getKey? (eraseKey l k) k' = getKey? l k' := by
  unfold getKey? eraseKey
  congr 1
  induction l with
  | nil => rfl
  | cons p rest ih =>
    by_cases hpk : p.1 = k
    · rw [List.filter_cons_of_neg (by simpa using hpk)]
      rw [List.find?_cons_of_neg _ (by simpa using (by rw [hpk]; exact Ne.symm h))]
      exact ih
    · rw [List.filter_cons_of_pos (by simpa using hpk)]
      by_cases hp' : p.1 = k'
      · rw [List.find?_cons_of_pos _ (by simpa using hp'),
            List.find?_cons_of_pos _ (by simpa using hp')]
      · rw [List.find?_cons_of_neg _ (by simpa using hp'),
            List.find?_cons_of_neg _ (by simpa using hp')]
        exact ih

/-- Deletion filters the key list. -/
theorem eraseKey_map_fst {V : Type} (l : List (String × V)) (k : String) :
    (eraseKey l k).map Prod.fst = (l.map Prod.fst).filter (fun x => x ≠ k) := by
  unfold eraseKey
  induction l with
  | nil => rfl
  | cons p rest ih =>
    by_cases hp : p.1 = k
    · rw [List.filter_cons_of_neg (by simpa using hp), List.map_cons,
        List.filter_cons_of_neg (by simpa using hp)]
      exact ih
    · rw [List.filter_cons_of_pos (by simpa using hp), List.map_cons, List.map_cons,
        List.filter_cons_of_pos (by simpa using hp)]
      rw [ih]

/-- In-place assignment keeps the key list. -/
theorem setKey_map_fst_of_isSome {V : Type} (l : List (String × V)) (k : String)
    (v : V) (hs : (l.find? (fun p => p.1 = k)).isSome) :
    (setKey l k v).map Prod.fst = l.map Prod.fst := by
  unfold setKey
  rw [if_pos hs, List.map_map]
  apply List.map_congr_left
  intro p _
  by_cases hp : p.1 = k
  · simp [hp]
  · simp [hp]

/-- Assignment adds at most one entry. -/
theorem setKey_length_le {V : Type} (l : List (String × V)) (k : String) (v : V) :
    (setKey l k v).length ≤ l.length + 1 := by
  unfold setKey
  split
  · simp
  · simp

/-- Deleting a present key strictly shrinks the list. -/
theorem eraseKey_length_lt {V : Type} (l : List (String × V)) (k : String)
    (h : k ∈ l.map Prod.fst) : (eraseKey l k).length < l.length := by
  obtain ⟨p, hp, rfl⟩ := List.mem_map.mp h
  unfold eraseKey
  rw [List.length_filter_lt_length_iff_exists]
  exact ⟨p, hp, by simp⟩

/-- The step function of `minTsKey`. -/
theorem minFold_mem :
    ∀ (l : List (String × ℤ)) (acc : Option (String × ℤ)) (q : String × ℤ),
      l.foldl (fun acc p =>
        match acc with
        | none => some p
        | some a => if p.2 < a.2 then some p else some a) acc = some q →
      q ∈ l ∨ acc = some q := by
  intro l
  induction l with
  | nil => intro acc q h; exact Or.inr h
  | cons p rest ih =>
    intro acc q h
    rw [List.foldl_cons] at h
    rcases ih _ q h with hmem | hacc
    · exact Or.inl (List.mem_cons_of_mem p hmem)
    · match acc with
      | none =>
        simp only [] at hacc
        cases hacc
        exact Or.inl (List.mem_cons_self p rest)
      | some a =>
        simp only [] at hacc
        split at hacc
        · cases hacc
          exact Or.inl (List.mem_cons_self p rest)
        · exact Or.inr hacc

/-- `minTsKey` returns a present key. -/
theorem minTsKey_mem (l : List (String × ℤ)) (k : String)
    (h : minTsKey l = some k) : k ∈ l.map Prod.fst := by
  unfold minTsKey at h
  obtain ⟨q, hq, rfl⟩ := Option.map_eq_some'.mp h
  rcases minFold_mem l none q hq with hmem | hacc
  · exact List.mem_map.mpr ⟨q, hmem, rfl⟩
  · cases hacc

/-- The fold keeps an accumulator that is minimal. -/
theorem minFold_const :
    ∀ (l : List (String × ℤ)) (a : String × ℤ), (∀ q ∈ l, a.2 ≤ q.2) →
      l.foldl (fun acc p =>
        match acc with
        | none => some p
        | some a => if p.2 < a.2 then some p else some a) (some a) = some a := by
  intro l
  induction l with
  | nil => intro a _; rfl
  | cons p rest ih =>
    intro a h
    rw [List.foldl_cons]
    have hle : a.2 ≤ p.2 := h p (List.mem_cons_self p rest)
    simp only [if_neg (not_lt.mpr hle)]
    exact ih a (fun q hq => h q (List.mem_cons_of_mem p hq))

/-- With strictly increasing timestamps the oldest entry is the head. -/
theorem minTsKey_head_of_lt (k0 : String) (t0 : ℤ) (rest : List (String × ℤ))
    (h : ∀ q ∈ rest, t0 < q.2) : minTsKey ((k0, t0) :: rest) = some k0 := by
  unfold minTsKey
  rw [List.foldl_cons]
  rw [minFold_const rest (k0, t0) (fun q hq => le_of_lt (h q hq))]
  rfl

/-- Deleting the head key of a nodup list is the tail. -/
theorem eraseKey_head {V : Type} (k0 : String) (v0 : V) (rest : List (String × V))
    (h : k0 ∉ rest.map Prod.fst) : eraseKey ((k0, v0) :: rest) k0 = rest := by
  unfold eraseKey
  rw [List.filter_cons_of_neg (by simp)]
  apply List.filter_eq_self.mpr
  intro p hp
  simp only [decide_eq_true_eq]
  intro hpk
  exact h (List.mem_map.mpr ⟨p, hp, hpk⟩)

/-! ## Cache-level lemmas -/

/-- A successful `set` leaves the assigned pair retrievable with the call's
timestamp, and does not touch capacity or TTL. -/
theorem LLMCache.set_ok_lookup {V : Type} (st : LLMCache V) (now : ℤ)
    (p m : String) (v : V) (st2 : LLMCache V) (h : st.set now p m v = .ok st2) :
    getKey? st2.cache (genKey p m) = some v ∧
    getKey? st2.timestamps (genKey p m) = some now ∧
    st2.max_size = st.max_size ∧ st2.ttl = st.ttl := by
  unfold LLMCache.set at h
  split_ifs at h with hfull
  · rcases hmin : minTsKey st.timestamps with _ | oldest <;> rw [hmin] at h
    · cases h
    · simp only [Except.ok.injEq] at h
      subst h
      exact ⟨getKey?_setKey_self _ _ _, getKey?_setKey_self _ _ _, rfl, rfl⟩
  · simp only [Except.ok.injEq] at h
    subst h
    exact ⟨getKey?_setKey_self _ _ _, getKey?_setKey_self _ _ _, rfl, rfl⟩

/-- `get` never changes capacity or TTL. -/
theorem LLMCache.get_ok_meta {V : Type} (st : LLMCache V) (now : ℤ)
    (p m : String) (res : Option V × LLMCache V) (h : st.get now p m = .ok res) :
    res.2.max_size = st.max_size ∧ res.2.ttl = st.ttl := by
  simp only [LLMCache.get] at h
  split at h
  · simp only [Except.ok.injEq] at h
    subst h
    exact ⟨rfl, rfl⟩
  · split at h
    · cases h
    · split_ifs at h <;> simp only [Except.ok.injEq] at h <;> subst h <;>
        exact ⟨rfl, rfl⟩

/-- On a short prompt the miss path with an HTTP-200 reply is exactly a
`set` of the body under the caller's prompt. -/
theorem generateResponseMiss_200 (st1 : LLMCache Response) (maxLen : ℕ)
    (model : String) (now : ℤ) (body : Response) (prompt : String)
    (hlen : prompt.data.length ≤ maxLen) :
    generateResponseMiss st1 maxLen model now (.replies 200 body) prompt
      = match st1.set now prompt model body with
        | .error _ => .error ()
        | .ok st2 => .ok ⟨body, st2, true⟩ := by
  unfold generateResponseMiss
  rw [if_neg (show ¬ maxLen < pyLen prompt from by unfold pyLen; omega)]
  rfl

/-- Inversion of a `_generate_response` call that used the transport and got
HTTP 200 with a short prompt: the response is the transport body, and the
final state is a successful `set` of that body under the caller's prompt. -/
theorem generateResponse_200_inv (st0 : LLMCache Response) (maxLen : ℕ)
    (model : String) (t0 : ℤ) (body : Response) (prompt : String) (r1 : GenResult)
    (hlen : prompt.data.length ≤ maxLen)
    (h1 : generateResponse st0 maxLen model t0 (.replies 200 body) prompt = .ok r1)
    (htc : r1.transportCalled = true) :
    r1.response = body ∧
    ∃ st1 : LLMCache Response, st1.set t0 prompt model body = .ok r1.state ∧
      st1.max_size = st0.max_size ∧ st1.ttl = st0.ttl := by
  unfold generateResponse at h1
  rcases hget : st0.get t0 prompt model with he | ⟨cached, st1⟩ <;> rw [hget] at h1
  · cases h1
  · obtain ⟨hms, httl⟩ := LLMCache.get_ok_meta st0 t0 prompt model _ hget
    rcases cached with _ | c
    · replace h1 : generateResponseMiss st1 maxLen model t0
          (.replies 200 body) prompt = .ok r1 := h1
      rw [generateResponseMiss_200 st1 maxLen model t0 body prompt hlen] at h1
      rcases hset : st1.set t0 prompt model body with he2 | st2 <;> rw [hset] at h1
      · cases h1
      · replace h1 : (Except.ok (⟨body, st2, true⟩ : GenResult)
            : Except Unit GenResult) = .ok r1 := h1
        simp only [Except.ok.injEq] at h1
        subst h1
        exact ⟨rfl, st1, hset, hms, httl⟩
    · replace h1 : (if c.isEmpty then
            generateResponseMiss st1 maxLen model t0 (.replies 200 body) prompt
          else (Except.ok (⟨c, st1, false⟩ : GenResult) : Except Unit GenResult))
          = .ok r1 := h1
      by_cases hc : c.isEmpty
      · rw [if_pos hc] at h1
        rw [generateResponseMiss_200 st1 maxLen model t0 body prompt hlen] at h1
        rcases hset : st1.set t0 prompt model body with he2 | st2 <;> rw [hset] at h1
        · cases h1
        · replace h1 : (Except.ok (⟨body, st2, true⟩ : GenResult)
              : Except Unit GenResult) = .ok r1 := h1
          simp only [Except.ok.injEq] at h1
          subst h1
          exact ⟨rfl, st1, hset, hms, httl⟩
      · rw [if_neg hc] at h1
        simp only [Except.ok.injEq] at h1
        subst h1
        cases htc

/-- C2 amended: two `_generate_response` calls with the identical prompt of
length at most `max_prompt_length`, where the first misses the cache and
succeeds with HTTP 200 returning a non-empty JSON object, perform exactly
one transport call: the second call (within the TTL window, whatever the
transport would do) is answered from the cache. -/
theorem c2_cache_idempotence (st0 : LLMCache Response) (maxLen : ℕ)
    (model prompt : String) (body : Response) (t0 t1 : ℤ) (tb2 : TransportReply)
    (r1 : GenResult)
    (hlen : prompt.data.length ≤ maxLen)
    (hbody : body ≠ [])
    (h1 : generateResponse st0 maxLen model t0 (.replies 200 body) prompt = .ok r1)
    (htc : r1.transportCalled = true)
    (ht : t1 - t0 < st0.ttl) :
    generateResponse r1.state maxLen model t1 tb2 prompt
      = .ok ⟨body, r1.state, false⟩ := by
  obtain ⟨hresp, st1, hset, hms, httl⟩ :=
    generateResponse_200_inv st0 maxLen model t0 body prompt r1 hlen h1 htc
  obtain ⟨hc, hts, hms2, httl2⟩ := LLMCache.set_ok_lookup st1 t0 prompt model body
    r1.state hset
  have hget2 : r1.state.get t1 prompt model = .ok (some body, r1.state) := by
    simp only [LLMCache.get]
    rw [hc, hts]
    show (if t1 - t0 < r1.state.ttl then
        (Except.ok (some body, r1.state) : Except Unit (Option Response × LLMCache Response))
      else .ok (none,
        { cache := eraseKey r1.state.cache (genKey prompt model),
          timestamps := eraseKey r1.state.timestamps (genKey prompt model),
          max_size := r1.state.max_size, ttl := r1.state.ttl }))
      = .ok (some body, r1.state)
    rw [if_pos (by rw [httl2, httl]; exact ht)]
  unfold generateResponse
  rw [hget2]
  show (if body.isEmpty then
      generateResponseMiss r1.state maxLen model t1 tb2 prompt
    else .ok ⟨body, r1.state, false⟩) = .ok ⟨body, r1.state, false⟩
  rw [if_neg (by
    rw [show body.isEmpty = false from by
      cases body with
      | nil => exact absurd rfl hbody
      | cons a t => rfl]
    exact Bool.false_ne_true)]

/-- C2 witness: a concrete first call (HTTP 200, body `{"response": "x"}`)
followed by a second call one second later is served from the cache. -/
theorem c2_cache_idempotence_witness :
    ("p" : String).data.length ≤ 8000 ∧
    ([("response", "x")] : Response) ≠ [] ∧
    generateResponse (llmCacheInit Response) 8000 "m" 0
      (.replies 200 [("response", "x")]) "p"
      = .ok ⟨[("response", "x")],
          ⟨[(genKey "p" "m", [("response", "x")])], [(genKey "p" "m", 0)],
           100, 3600⟩, true⟩ ∧
    generateResponse
      (⟨[(genKey "p" "m", [("response", "x")])], [(genKey "p" "m", 0)],
        100, 3600⟩ : LLMCache Response) 8000 "m" 1 .raises "p"
      = .ok ⟨[("response", "x")],
          ⟨[(genKey "p" "m", [("response", "x")])], [(genKey "p" "m", 0)],
           100, 3600⟩, false⟩ := by
  refine ⟨by decide, by decide, rfl, ?_⟩
  exact c2_cache_idempotence (llmCacheInit Response) 8000 "m" "p"
    [("response", "x")] 0 1 .raises
    ⟨[("response", "x")],
     ⟨[(genKey "p" "m", [("response", "x")])], [(genKey "p" "m", 0)], 100, 3600⟩,
     true⟩
    (by decide) (by decide) rfl rfl (by decide)

/-! ## Eviction lemmas (C5) -/

/-- `CacheIns.key` unfolded. -/
theorem CacheIns.key_def {V : Type} (i : CacheIns V) :
    i.key = genKey i.prompt i.model := rfl

/-- Unfolding of `>>=` on a success value in `Except`. -/
theorem exceptBindOp_ok {ε α β : Type} (a : α) (f : α → Except ε β) :
    ((Except.ok a : Except ε α) >>= f) = f a := rfl

/-- Head-skip for `getKey?`. -/
theorem getKey?_cons_of_ne {V : Type} (a : String × V) (l : List (String × V))
    (k : String) (h : ¬a.1 = k) : getKey? (a :: l) k = getKey? l k := by
  unfold getKey?
  rw [List.find?_cons_of_neg _ (by simpa using h)]

/-- Head-hit for `getKey?`. -/
theorem getKey?_cons_of_eq {V : Type} (a : String × V) (l : List (String × V))
    (k : String) (h : a.1 = k) : getKey? (a :: l) k = some a.2 := by
  unfold getKey?
  rw [List.find?_cons_of_pos _ (by simpa using h)]
  rfl

/-- Lookup of a member's key in the entry list built from insertions. -/
theorem getKey?_entries_of_mem {V W : Type} (f : CacheIns V → W) :
    ∀ (items : List (CacheIns V)) (i : CacheIns V), i ∈ items →
      (items.map CacheIns.key).Nodup →
      getKey? (items.map (fun j => (j.key, f j))) i.key = some (f i) := by
  intro items
  induction items with
  | nil => intro i hmem _; cases hmem
  | cons j rest ih =>
    intro i hmem hnd
    rw [List.map_cons] at hnd ⊢
    by_cases hj : j.key = i.key
    · have hij : f j = f i := by
        rcases List.mem_cons.mp hmem with rfl | hrest
        · rfl
        · exfalso
          have hkmem : i.key ∈ rest.map CacheIns.key :=
            List.mem_map.mpr ⟨i, hrest, rfl⟩
          exact (List.nodup_cons.mp hnd).1 (hj ▸ hkmem)
      rw [getKey?_cons_of_eq _ _ _ hj]
      rw [hij]
    · rw [getKey?_cons_of_ne _ _ _ hj]
      have hrest : i ∈ rest := by
        rcases List.mem_cons.mp hmem with rfl | hr
        · exact absurd rfl hj
        · exact hr
      exact ih i hrest (List.nodup_cons.mp hnd).2

/-- Lookup of an absent key in the entry list built from insertions. -/
theorem getKey?_entries_of_not_mem {V W : Type} (f : CacheIns V → W)
    (items : List (CacheIns V)) (k : String) (h : k ∉ items.map CacheIns.key) :
    getKey? (items.map (fun j => (j.key, f j))) k = none := by
  rw [getKey?_eq_none_iff]
  intro hmem
  apply h
  rw [List.map_map] at hmem
  simpa using hmem

/-- `setAll` distributes over append. -/
theorem setAll_append {V : Type} (l1 l2 : List (CacheIns V)) :
    ∀ st : LLMCache V,
      setAll st (l1 ++ l2) = setAll st l1 >>= fun s => setAll s l2 := by
  induction l1 with
  | nil =>
    intro st
    simp only [List.nil_append, setAll, List.foldlM_nil]
    rfl
  | cons i rest ih =>
    intro st
    simp only [List.cons_append, setAll, List.foldlM_cons]
    rcases hset : st.set i.t i.prompt i.model i.v with he | s
    · rfl
    · rw [exceptBindOp_ok, exceptBindOp_ok]
      exact ih s

/-- `setAll` on one insertion is `set`. -/
theorem setAll_singleton {V : Type} (st : LLMCache V) (i : CacheIns V) :
    setAll st [i] = st.set i.t i.prompt i.model i.v := by
  simp only [setAll, List.foldlM_cons, List.foldlM_nil]
  rcases hset : st.set i.t i.prompt i.model i.v with he | s
  · rfl
  · rfl

/-- While the cache stays below capacity, `setAll` appends the insertions in
order to both dicts. -/
theorem setAll_fills {V : Type} :
    ∀ (items : List (CacheIns V)) (st : LLMCache V),
      st.cache.length + items.length ≤ st.max_size →
      st.timestamps.map Prod.fst = st.cache.map Prod.fst →
      (st.cache.map Prod.fst ++ items.map CacheIns.key).Nodup →
      setAll st items = .ok
        ⟨st.cache ++ items.map (fun i => (i.key, i.v)),
         st.timestamps ++ items.map (fun i => (i.key, i.t)),
         st.max_size, st.ttl⟩ := by
  intro items
  induction items with
  | nil =>
    intro st h1 h2 h3
    simp only [setAll, List.foldlM_nil, List.map_nil, List.append_nil]
    cases st
    rfl
  | cons i rest ih =>
    intro st h1 h2 h3
    have hkey_notmem : genKey i.prompt i.model ∉ st.cache.map Prod.fst := by
      intro hmem
      rcases List.nodup_append.mp h3 with ⟨_, _, hdisj⟩
      exact hdisj hmem (by
        rw [List.map_cons]
        exact List.mem_cons_self _ _)
    have hfresh_c : getKey? st.cache (genKey i.prompt i.model) = none :=
      (getKey?_eq_none_iff _ _).mpr hkey_notmem
    have hfresh_t : getKey? st.timestamps (genKey i.prompt i.model) = none := by
      rw [getKey?_eq_none_iff, h2]
      exact hkey_notmem
    have hlt : st.cache.length < st.max_size := by
      simp only [List.length_cons] at h1
      omega
    have hset : st.set i.t i.prompt i.model i.v = .ok
        ⟨st.cache ++ [(i.key, i.v)], st.timestamps ++ [(i.key, i.t)],
         st.max_size, st.ttl⟩ := by
      unfold LLMCache.set
      rw [if_neg (by omega : ¬st.max_size ≤ st.cache.length)]
      rw [setKey_of_none _ _ _ hfresh_c, setKey_of_none _ _ _ hfresh_t]
      rfl
    simp only [setAll, List.foldlM_cons]
    rw [hset, exceptBindOp_ok]
    have hih := ih ⟨st.cache ++ [(i.key, i.v)], st.timestamps ++ [(i.key, i.t)],
        st.max_size, st.ttl⟩
      (by simp only [List.length_append, List.length_singleton]
          simp only [List.length_cons] at h1
          omega)
      (by simp only [List.map_append, List.map_cons, List.map_nil, h2])
      (by
        simp only [List.map_append, List.map_cons, List.map_nil]
        rw [List.append_assoc]
        simp only [List.singleton_append]
        simpa using h3)
    simp only [setAll] at hih
    rw [hih]
    simp only [List.map_cons, List.append_assoc, List.singleton_append]

/-- The overflowing `set`: the cache is at capacity, the head holds the
oldest timestamp, and the fresh insertion evicts it and appends itself. -/
theorem set_overflow {V : Type} (k0 : String) (v0 : V) (t0 : ℤ)
    (crest : List (String × V)) (trest : List (String × ℤ)) (ms : ℕ) (ttl : ℤ)
    (i : CacheIns V)
    (hlen : ms ≤ crest.length + 1)
    (hmin : ∀ q ∈ trest, t0 < q.2)
    (hnc : k0 ∉ crest.map Prod.fst)
    (hnt : k0 ∉ trest.map Prod.fst)
    (hfc : getKey? crest (genKey i.prompt i.model) = none)
    (hft : getKey? trest (genKey i.prompt i.model) = none) :
    (LLMCache.mk ((k0, v0) :: crest) ((k0, t0) :: trest) ms ttl).set
        i.t i.prompt i.model i.v
      = .ok ⟨crest ++ [(genKey i.prompt i.model, i.v)],
          trest ++ [(genKey i.prompt i.model, i.t)], ms, ttl⟩ := by
  unfold LLMCache.set
  rw [if_pos (by simpa using hlen)]
  rw [minTsKey_head_of_lt k0 t0 trest hmin]
  show (Except.ok
      ⟨setKey (eraseKey ((k0, v0) :: crest) k0) (genKey i.prompt i.model) i.v,
       setKey (eraseKey ((k0, t0) :: trest) k0) (genKey i.prompt i.model) i.t,
       ms, ttl⟩ : Except Unit (LLMCache V)) = _
  rw [eraseKey_head k0 v0 crest hnc, eraseKey_head k0 t0 trest hnt]
  rw [setKey_of_none _ _ _ hfc, setKey_of_none _ _ _ hft]

/-- Within TTL, a key present in both dicts is a cache hit that leaves the
state unchanged. -/
theorem LLMCache.get_hit {V : Type} (st : LLMCache V) (now : ℤ) (p m : String)
    (v : V) (ts : ℤ)
    (hc : getKey? st.cache (genKey p m) = some v)
    (ht : getKey? st.timestamps (genKey p m) = some ts)
    (httl : now - ts < st.ttl) :
    st.get now p m = .ok (some v, st) := by
  simp only [LLMCache.get, hc, ht]
  rw [if_pos httl]

/-- A key absent from the cache dict is a miss that leaves the state
unchanged. -/
theorem LLMCache.get_absent {V : Type} (st : LLMCache V) (now : ℤ)
    (p m : String) (hc : getKey? st.cache (genKey p m) = none) :
    st.get now p m = .ok (none, st) := by
  simp only [LLMCache.get, hc]

/-- C5: starting from an empty `LLMCache` of capacity `max_size` (at least 1,
so that the eviction's `min()` is over a non-empty dict), inserting
`max_size + 1` entries with pairwise-distinct keys at strictly increasing
timestamps via `set` leaves a cache holding exactly `max_size` entries in
which every insertion but the first is retrievable via `get` within TTL,
while the single oldest-inserted key is no longer retrievable. -/
theorem c5_cache_eviction {V : Type} (ms : ℕ) (ttl now : ℤ)
    (items : List (CacheIns V))
    (hms : 1 ≤ ms)
    (hlen : items.length = ms + 1)
    (hkeys : (items.map CacheIns.key).Nodup)
    (hts : (items.map CacheIns.t).Pairwise (· < ·))
    (httl : ∀ i ∈ items, now - i.t < ttl) :
    ∃ st : LLMCache V,
      setAll ⟨[], [], ms, ttl⟩ items = .ok st ∧
      st.cache.length = ms ∧
      (∀ i ∈ items.tail, st.get now i.prompt i.model = .ok (some i.v, st)) ∧
      (∀ i0, items.head? = some i0 →
        st.get now i0.prompt i0.model = .ok (none, st)) := by
  rcases List.eq_nil_or_concat items with rfl | ⟨front, lastI, rfl⟩
  · simp only [List.length_nil] at hlen
    exact absurd hlen (by omega)
  simp only [List.concat_eq_append] at hlen hkeys hts httl ⊢
  have hfrontlen : front.length = ms := by
    simp only [List.length_append, List.length_singleton] at hlen
    omega
  rcases front with _ | ⟨f0, frest⟩
  · simp only [List.length_nil] at hfrontlen
    omega
  rw [List.map_append] at hkeys hts
  have hnd := List.nodup_append.mp hkeys
  have hfront_nd : ((f0 :: frest).map CacheIns.key).Nodup := hnd.1
  have hdisj := hnd.2.2
  have hlast_notin : lastI.key ∉ (f0 :: frest).map CacheIns.key := by
    intro hmem
    exact hdisj hmem (by simp)
  have htail_nd : ((frest ++ [lastI]).map CacheIns.key).Nodup := by
    rw [List.map_append]
    refine List.nodup_append.mpr ⟨(List.nodup_cons.mp hfront_nd).2, by simp, ?_⟩
    intro a ha hmem
    exact hdisj (List.mem_cons_of_mem _ ha) hmem
  have hf0_notin : f0.key ∉ (frest ++ [lastI]).map CacheIns.key := by
    rw [List.map_append]
    intro hmem
    rcases List.mem_append.mp hmem with h | h
    · exact (List.nodup_cons.mp hfront_nd).1 h
    · exact hdisj (by simp) h
  simp only [List.map_cons, List.map_nil, List.cons_append] at hts
  have hts' := (List.pairwise_cons.mp hts).1
  have hfill := setAll_fills (f0 :: frest) ⟨[], [], ms, ttl⟩
    (by simp [hfrontlen]) rfl (by simpa using hfront_nd)
  simp only [List.nil_append] at hfill
  have hov := set_overflow f0.key f0.v f0.t
    (frest.map (fun j => (j.key, j.v))) (frest.map (fun j => (j.key, j.t)))
    ms ttl lastI
    (by simp only [List.length_map]
        simp only [List.length_cons] at hfrontlen
        omega)
    (by intro q hq
        rcases List.mem_map.mp hq with ⟨j, hj, rfl⟩
        exact hts' _ (List.mem_append_left _ (List.mem_map.mpr ⟨j, hj, rfl⟩)))
    (by intro hmem
        rcases List.mem_map.mp hmem with ⟨q, hq, hqe⟩
        rcases List.mem_map.mp hq with ⟨j, hj, rfl⟩
        exact (List.nodup_cons.mp hfront_nd).1 (List.mem_map.mpr ⟨j, hj, hqe⟩))
    (by intro hmem
        rcases List.mem_map.mp hmem with ⟨q, hq, hqe⟩
        rcases List.mem_map.mp hq with ⟨j, hj, rfl⟩
        exact (List.nodup_cons.mp hfront_nd).1 (List.mem_map.mpr ⟨j, hj, hqe⟩))
    (getKey?_entries_of_not_mem (fun j => j.v) frest lastI.key
      (fun hmem => hlast_notin (List.mem_cons_of_mem _ hmem)))
    (getKey?_entries_of_not_mem (fun j => j.t) frest lastI.key
      (fun hmem => hlast_notin (List.mem_cons_of_mem _ hmem)))
  refine ⟨⟨(frest ++ [lastI]).map (fun j => (j.key, j.v)),
           (frest ++ [lastI]).map (fun j => (j.key, j.t)), ms, ttl⟩,
    ?_, ?_, ?_, ?_⟩
  · rw [setAll_append, hfill, exceptBindOp_ok, setAll_singleton]
    simp only [List.map_cons]
    rw [hov]
    simp only [List.map_append, List.map_cons, List.map_nil]
    rfl
  · simp only [List.length_map, List.length_append, List.length_cons,
      List.length_nil]
    simp only [List.length_cons] at hfrontlen
    omega
  · intro i hi
    rw [List.cons_append, List.tail_cons] at hi
    have himem : i ∈ (f0 :: frest) ++ [lastI] := by
      rcases List.mem_append.mp hi with h | h
      · exact List.mem_append_left _ (List.mem_cons_of_mem _ h)
      · exact List.mem_append_right _ h
    have hc := getKey?_entries_of_mem (fun j => j.v) (frest ++ [lastI]) i hi
      htail_nd
    have ht := getKey?_entries_of_mem (fun j => j.t) (frest ++ [lastI]) i hi
      htail_nd
    rw [show CacheIns.key i = genKey i.prompt i.model from rfl] at hc ht
    exact LLMCache.get_hit _ now i.prompt i.model i.v i.t hc ht (httl i himem)
  · intro i0 h0
    rw [List.cons_append, List.head?_cons] at h0
    injection h0 with h0
    subst h0
    have hc := getKey?_entries_of_not_mem (fun j => j.v) (frest ++ [lastI])
      f0.key hf0_notin
    rw [show CacheIns.key f0 = genKey f0.prompt f0.model from rfl] at hc
    exact LLMCache.get_absent _ now f0.prompt f0.model hc

/-- Witness for C5: capacity 1, two insertions with distinct keys at
timestamps 0 and 1, read at time 2 with TTL 3600. -/
theorem c5_cache_eviction_witness :
    ((1 : ℕ) ≤ 1 ∧
     ([⟨"p1", "m", 0, "a"⟩, ⟨"p2", "m", 1, "b"⟩] :
        List (CacheIns String)).length = 1 + 1 ∧
     (([⟨"p1", "m", 0, "a"⟩, ⟨"p2", "m", 1, "b"⟩] :
        List (CacheIns String)).map CacheIns.key).Nodup ∧
     (([⟨"p1", "m", 0, "a"⟩, ⟨"p2", "m", 1, "b"⟩] :
        List (CacheIns String)).map CacheIns.t).Pairwise (· < ·) ∧
     (∀ i ∈ ([⟨"p1", "m", 0, "a"⟩, ⟨"p2", "m", 1, "b"⟩] :
        List (CacheIns String)), (2 : ℤ) - i.t < 3600)) ∧
    (∃ st : LLMCache String,
      setAll ⟨[], [], 1, 3600⟩
        ([⟨"p1", "m", 0, "a"⟩, ⟨"p2", "m", 1, "b"⟩] :
          List (CacheIns String)) = .ok st ∧
      st.cache.length = 1 ∧
      (∀ i ∈ ([⟨"p1", "m", 0, "a"⟩, ⟨"p2", "m", 1, "b"⟩] :
          List (CacheIns String)).tail,
        st.get 2 i.prompt i.model = .ok (some i.v, st)) ∧
      (∀ i0, ([⟨"p1", "m", 0, "a"⟩, ⟨"p2", "m", 1, "b"⟩] :
          List (CacheIns String)).head? = some i0 →
        st.get 2 i0.prompt i0.model = .ok (none, st))) :=
  ⟨⟨by decide, by decide, by decide, by decide, by decide⟩,
   c5_cache_eviction 1 3600 2
     ([⟨"p1", "m", 0, "a"⟩, ⟨"p2", "m", 1, "b"⟩] : List (CacheIns String))
     (by decide) (by decide) (by decide) (by decide) (by decide)⟩

/-! ## Cache invariants (C10) -/

/-- `find?` by key succeeds exactly when the key is in the key list. -/
theorem findKey_isSome_iff {V : Type} (l : List (String × V)) (k : String) :
    (l.find? (fun p => p.1 = k)).isSome ↔ k ∈ l.map Prod.fst := by
  rcases hf : l.find? (fun p => p.1 = k) with _ | p
  · rw [hf]
    simp only [Option.isSome_none, Bool.false_eq_true, false_iff]
    rw [← getKey?_eq_none_iff]
    unfold getKey?
    rw [hf]
    rfl
  · rw [hf]
    simp only [Option.isSome_some, true_iff]
    have hp : p.1 = k := by simpa using List.find?_some hf
    exact List.mem_map.mpr ⟨p, List.mem_of_find?_eq_some hf, hp⟩

/-- A failed `find?` by key is an absent key for `getKey?`. -/
theorem getKey?_eq_none_of_not_isSome {V : Type} (l : List (String × V))
    (k : String) (h : ¬(l.find? (fun p => p.1 = k)).isSome) :
    getKey? l k = none := by
  unfold getKey?
  rw [Option.not_isSome_iff_eq_none.mp h]
  rfl

/-- `get` preserves the representation invariant and the capacity. -/
theorem get_preserves_inv {V : Type} (st : LLMCache V) (now : ℤ)
    (p m : String) (res : Option V × LLMCache V)
    (h : st.get now p m = .ok res) (hinv : CacheInv st) :
    CacheInv res.2 ∧ res.2.max_size = st.max_size := by
  obtain ⟨hmap, hlen⟩ := hinv
  simp only [LLMCache.get] at h
  split at h
  · cases h
    exact ⟨⟨hmap, hlen⟩, rfl⟩
  · split at h
    · cases h
    · split_ifs at h
      · cases h
        exact ⟨⟨hmap, hlen⟩, rfl⟩
      · cases h
        refine ⟨⟨?_, ?_⟩, rfl⟩
        · show (eraseKey st.timestamps (genKey p m)).map Prod.fst
            = (eraseKey st.cache (genKey p m)).map Prod.fst
          rw [eraseKey_map_fst, eraseKey_map_fst, hmap]
        · show (eraseKey st.cache (genKey p m)).length ≤ st.max_size
          calc (eraseKey st.cache (genKey p m)).length ≤ st.cache.length :=
                List.length_filter_le _ _
            _ ≤ st.max_size := hlen

/-- `set` preserves the representation invariant and the capacity. -/
theorem set_preserves_inv {V : Type} (st : LLMCache V) (now : ℤ)
    (p m : String) (v : V) (st2 : LLMCache V)
    (h : st.set now p m v = .ok st2) (hinv : CacheInv st) :
    CacheInv st2 ∧ st2.max_size = st.max_size := by
  obtain ⟨hmap, hlen⟩ := hinv
  unfold LLMCache.set at h
  split_ifs at h with hfull
  · rcases hmin : minTsKey st.timestamps with _ | oldest <;> rw [hmin] at h
    · cases h
    · simp only [Except.ok.injEq] at h
      subst h
      have hold_t : oldest ∈ st.timestamps.map Prod.fst := minTsKey_mem _ _ hmin
      have hold_c : oldest ∈ st.cache.map Prod.fst := by rwa [hmap] at hold_t
      have herase : (eraseKey st.timestamps oldest).map Prod.fst
          = (eraseKey st.cache oldest).map Prod.fst := by
        rw [eraseKey_map_fst, eraseKey_map_fst, hmap]
      refine ⟨⟨?_, ?_⟩, rfl⟩
      · show (setKey (eraseKey st.timestamps oldest) (genKey p m) now).map
            Prod.fst
          = (setKey (eraseKey st.cache oldest) (genKey p m) v).map Prod.fst
        by_cases hs :
            ((eraseKey st.cache oldest).find? (fun q => q.1 = genKey p m)).isSome
        · have hs' : ((eraseKey st.timestamps oldest).find?
              (fun q => q.1 = genKey p m)).isSome := by
            rw [findKey_isSome_iff] at hs ⊢
            rwa [herase]
          rw [setKey_map_fst_of_isSome _ _ _ hs,
            setKey_map_fst_of_isSome _ _ _ hs']
          exact herase
        · have hs' : ¬((eraseKey st.timestamps oldest).find?
              (fun q => q.1 = genKey p m)).isSome := by
            rw [findKey_isSome_iff] at hs ⊢
            rwa [herase]
          rw [setKey_of_none _ _ _ (getKey?_eq_none_of_not_isSome _ _ hs),
            setKey_of_none _ _ _ (getKey?_eq_none_of_not_isSome _ _ hs')]
          simp only [List.map_append, List.map_cons, List.map_nil, herase]
      · show (setKey (eraseKey st.cache oldest) (genKey p m) v).length
          ≤ st.max_size
        have h1 : (eraseKey st.cache oldest).length < st.cache.length :=
          eraseKey_length_lt _ _ hold_c
        have h2 := setKey_length_le (eraseKey st.cache oldest) (genKey p m) v
        omega
  · simp only [Except.ok.injEq] at h
    subst h
    refine ⟨⟨?_, ?_⟩, rfl⟩
    · show (setKey st.timestamps (genKey p m) now).map Prod.fst
        = (setKey st.cache (genKey p m) v).map Prod.fst
      by_cases hs : (st.cache.find? (fun q => q.1 = genKey p m)).isSome
      · have hs' : (st.timestamps.find? (fun q => q.1 = genKey p m)).isSome := by
          rw [findKey_isSome_iff] at hs ⊢
          rwa [hmap]
        rw [setKey_map_fst_of_isSome _ _ _ hs,
          setKey_map_fst_of_isSome _ _ _ hs']
        exact hmap
      · have hs' : ¬(st.timestamps.find? (fun q => q.1 = genKey p m)).isSome := by
          rw [findKey_isSome_iff] at hs ⊢
          rwa [hmap]
        rw [setKey_of_none _ _ _ (getKey?_eq_none_of_not_isSome _ _ hs),
          setKey_of_none _ _ _ (getKey?_eq_none_of_not_isSome _ _ hs')]
        simp only [List.map_append, List.map_cons, List.map_nil, hmap]
    · show (setKey st.cache (genKey p m) v).length ≤ st.max_size
      by_cases hs : (st.cache.find? (fun q => q.1 = genKey p m)).isSome
      · have hfst := setKey_map_fst_of_isSome st.cache (genKey p m) v hs
        have hlen2 : (setKey st.cache (genKey p m) v).length = st.cache.length := by
          have := congrArg List.length hfst
          simpa using this
        omega
      · rw [setKey_of_none _ _ _ (getKey?_eq_none_of_not_isSome _ _ hs)]
        simp only [List.length_append, List.length_singleton]
        omega

/-- Any `get`/`set` sequence preserves the representation invariant and the
capacity. -/
theorem runOps_preserves_inv {V : Type} :
    ∀ (ops : List (CacheOp V)) (st st2 : LLMCache V),
      runOps st ops = .ok st2 → CacheInv st →
      CacheInv st2 ∧ st2.max_size = st.max_size := by
  intro ops
  induction ops with
  | nil =>
    intro st st2 h hinv
    replace h : (Except.ok st : Except Unit (LLMCache V)) = .ok st2 := h
    cases h
    exact ⟨hinv, rfl⟩
  | cons op rest ih =>
    intro st st2 h hinv
    rcases op with ⟨now, p, m⟩ | ⟨now, p, m, v⟩
    · replace h : ((st.get now p m).map (fun r => r.2) >>=
          fun s => runOps s rest) = .ok st2 := h
      rcases hg : st.get now p m with he | res <;> rw [hg] at h
      · replace h : (Except.error he : Except Unit (LLMCache V)) = .ok st2 := h
        cases h
      · replace h : runOps res.2 rest = .ok st2 := h
        obtain ⟨hinv2, hm2⟩ := get_preserves_inv st now p m res hg hinv
        obtain ⟨hinv3, hm3⟩ := ih res.2 st2 h hinv2
        exact ⟨hinv3, hm3.trans hm2⟩
    · replace h : (st.set now p m v >>= fun s => runOps s rest) = .ok st2 := h
      rcases hs : st.set now p m v with he | s1 <;> rw [hs] at h
      · replace h : (Except.error he : Except Unit (LLMCache V)) = .ok st2 := h
        cases h
      · replace h : runOps s1 rest = .ok st2 := h
        obtain ⟨hinv2, hm2⟩ := set_preserves_inv st now p m v s1 hs hinv
        obtain ⟨hinv3, hm3⟩ := ih s1 st2 h hinv2
        exact ⟨hinv3, hm3.trans hm2⟩

/-- C10: every `get`/`set` sequence from a freshly constructed cache keeps
the value dict and the timestamp dict on exactly the same keys and within
capacity; and on a full cache `set` removes the oldest-timestamped key —
also when the assigned key already exists — unless that oldest key is the
assigned key itself. -/
theorem c10_cache_invariant {V : Type} :
    (∀ (ops : List (CacheOp V)) (ms : ℕ) (ttl : ℤ) (st2 : LLMCache V),
      runOps ⟨[], [], ms, ttl⟩ ops = .ok st2 →
      st2.timestamps.map Prod.fst = st2.cache.map Prod.fst ∧
      st2.cache.length ≤ st2.max_size) ∧
    (∀ (st : LLMCache V) (now : ℤ) (p m : String) (v : V) (oldest : String)
        (st2 : LLMCache V),
      st.max_size ≤ st.cache.length →
      minTsKey st.timestamps = some oldest →
      st.set now p m v = .ok st2 →
      genKey p m = oldest ∨ getKey? st2.cache oldest = none) := by
  constructor
  · intro ops ms ttl st2 h
    have hinv0 : CacheInv (⟨[], [], ms, ttl⟩ : LLMCache V) :=
      ⟨rfl, Nat.zero_le ms⟩
    exact (runOps_preserves_inv ops _ st2 h hinv0).1
  · intro st now p m v oldest st2 hfull hmin h
    unfold LLMCache.set at h
    rw [if_pos hfull, hmin] at h
    simp only [Except.ok.injEq] at h
    subst h
    by_cases hk : genKey p m = oldest
    · exact Or.inl hk
    · refine Or.inr ?_
      show getKey? (setKey (eraseKey st.cache oldest) (genKey p m) v) oldest
        = none
      rw [getKey?_setKey_ne _ _ _ _ (fun he => hk he.symm)]
      exact getKey?_eraseKey_self _ _

/-- Witness for C10: two insertions into a capacity-1 cache; the fresh
cache's invariant conclusions hold at the resulting state, and the second
insertion evicts the first key. -/
theorem c10_cache_invariant_witness :
    (runOps (⟨[], [], 1, 3600⟩ : LLMCache String)
        [CacheOp.set 0 "p" "m" "x", CacheOp.set 1 "q" "m" "y"]
      = .ok ⟨[(genKey "q" "m", "y")], [(genKey "q" "m", 1)], 1, 3600⟩) ∧
    ((⟨[(genKey "q" "m", "y")], [(genKey "q" "m", 1)], 1, 3600⟩ :
        LLMCache String).timestamps.map Prod.fst
      = (⟨[(genKey "q" "m", "y")], [(genKey "q" "m", 1)], 1, 3600⟩ :
        LLMCache String).cache.map Prod.fst ∧
     (⟨[(genKey "q" "m", "y")], [(genKey "q" "m", 1)], 1, 3600⟩ :
        LLMCache String).cache.length
      ≤ (⟨[(genKey "q" "m", "y")], [(genKey "q" "m", 1)], 1, 3600⟩ :
        LLMCache String).max_size) ∧
    ((⟨[(genKey "p" "m", "x")], [(genKey "p" "m", 0)], 1, 3600⟩ :
        LLMCache String).set 1 "q" "m" "y"
      = .ok ⟨[(genKey "q" "m", "y")], [(genKey "q" "m", 1)], 1, 3600⟩) ∧
    (genKey "q" "m" = genKey "p" "m" ∨
      getKey? (⟨[(genKey "q" "m", "y")], [(genKey "q" "m", 1)], 1, 3600⟩ :
        LLMCache String).cache (genKey "p" "m") = none) :=
  ⟨rfl,
   c10_cache_invariant.1 [CacheOp.set 0 "p" "m" "x", CacheOp.set 1 "q" "m" "y"]
     1 3600 _ rfl,
   rfl,
   c10_cache_invariant.2
     ⟨[(genKey "p" "m", "x")], [(genKey "p" "m", 0)], 1, 3600⟩
     1 "q" "m" "y" (genKey "p" "m") _ (by decide) rfl rfl⟩

/-- A `_generate_response` call whose prompt key is absent from the cache
reaches the transport; with a raising transport the call raises. -/
theorem generateResponse_raises_of_miss (st : LLMCache Response) (maxLen : ℕ)
    (model : String) (now : ℤ) (prompt : String)
    (h : getKey? st.cache (genKey prompt model) = none) :
    generateResponse st maxLen model now .raises prompt = .error () := by
  have hget : st.get now prompt model = .ok (none, st) := by
    simp only [LLMCache.get]
    rw [h]
  unfold generateResponse
  rw [hget]
  rfl

/-- C2 counterexample. First conjunct: an HTTP-200 body that is an empty
JSON object (falsy in Python) is cached but treated as a miss, so the second
identical call within the TTL makes a second transport call. Second
conjunct: a prompt of 8001 characters is cached under its truncated form
while looked up under its original form, so the second identical call misses
the cache and reaches the transport (which here raises). -/
theorem c2_claim_false :
    (Except.map GenResult.transportCalled
      (Except.bind
        (generateResponse (llmCacheInit Response) 8000 "m" 0
          (.replies 200 []) "p")
        (fun r1 => generateResponse r1.state 8000 "m" 1
          (.replies 200 []) "p"))) = .ok true ∧
    (Except.bind
      (generateResponse (llmCacheInit Response) 8000 "m" 0
        (.replies 200 [("response", "x")]) ⟨List.replicate 8001 'a'⟩)
      (fun r1 => generateResponse r1.state 8000 "m" 1
        .raises ⟨List.replicate 8001 'a'⟩)) = .error () := by
  constructor
  · rfl
  · have hPlen : pyLen ⟨List.replicate 8001 'a'⟩ = 8001 :=
      List.length_replicate 8001 'a'
    have hget1 : (llmCacheInit Response).get 0 ⟨List.replicate 8001 'a'⟩ "m"
        = .ok (none, llmCacheInit Response) := rfl
    have hset1 : (llmCacheInit Response).set 0
        (pyTake ⟨List.replicate 8001 'a'⟩ 8000 ++ truncationNotice) "m"
        [("response", "x")]
        = .ok ⟨[(genKey (pyTake ⟨List.replicate 8001 'a'⟩ 8000 ++ truncationNotice)
              "m", [("response", "x")])],
            [(genKey (pyTake ⟨List.replicate 8001 'a'⟩ 8000 ++ truncationNotice)
              "m", 0)], 100, 3600⟩ := rfl
    have h1 : generateResponse (llmCacheInit Response) 8000 "m" 0
        (.replies 200 [("response", "x")]) ⟨List.replicate 8001 'a'⟩
        = .ok ⟨[("response", "x")],
            ⟨[(genKey (pyTake ⟨List.replicate 8001 'a'⟩ 8000 ++ truncationNotice)
                "m", [("response", "x")])],
             [(genKey (pyTake ⟨List.replicate 8001 'a'⟩ 8000 ++ truncationNotice)
                "m", 0)], 100, 3600⟩, true⟩ := by
      unfold generateResponse
      rw [hget1]
      show generateResponseMiss (llmCacheInit Response) 8000 "m" 0
        (.replies 200 [("response", "x")]) ⟨List.replicate 8001 'a'⟩ = _
      unfold generateResponseMiss
      rw [hPlen]
      rw [if_pos (by norm_num : 8000 < 8001)]
      rfl
    rw [h1, exceptBind_ok]
    dsimp only
    have hne : genKey (pyTake ⟨List.replicate 8001 'a'⟩ 8000 ++ truncationNotice) "m"
        ≠ genKey ⟨List.replicate 8001 'a'⟩ "m" := by
      intro hkey
      have hdata1 : (genKey (pyTake ⟨List.replicate 8001 'a'⟩ 8000
            ++ truncationNotice) "m").data
          = "m".data ++ [':']
            ++ ((List.replicate 8001 'a').take 8000 ++ truncationNotice.data) := rfl
      have hdata2 : (genKey (⟨List.replicate 8001 'a'⟩ : String) "m").data
          = "m".data ++ [':'] ++ List.replicate 8001 'a' := rfl
      have hlen2 := congrArg (fun l => l.length) (congrArg String.data hkey)
      simp only [] at hlen2
      rw [hdata1, hdata2] at hlen2
      have hnotice : truncationNotice.data.length = 46 := by decide
      simp only [List.length_append, List.length_take, List.length_replicate,
        hnotice, show ("m" : String).data = ['m'] from rfl, List.length_cons,
        List.length_nil, show min 8000 8001 = 8000 from by norm_num] at hlen2
      omega
    have hfind : getKey?
        [(genKey (pyTake ⟨List.replicate 8001 'a'⟩ 8000 ++ truncationNotice) "m",
          ([("response", "x")] : Response))]
        (genKey ⟨List.replicate 8001 'a'⟩ "m") = none := by
      rw [getKey?_eq_none_iff]
      intro hmem
      simp only [List.map_cons, List.map_nil, List.mem_singleton] at hmem
      exact hne hmem.symm
    exact generateResponse_raises_of_miss _ 8000 "m" 1 _ hfind

/-! ## Empty-batch sentinels (C7) -/

/-- C7 counterexample: a batch whose single record has a date field but no
non-empty string text field extracts no text, yet `_analyze_temporal_patterns`
returns real temporal data for it — not its documented
`{temporal_data: False}` sentinel. -/
theorem c7_claim_false :
    Analyzer.extractTexts [[("date", PyVal.vstr "2024-01-01")]] = [] ∧
    Analyzer.analyzeTemporalPatterns [[("date", PyVal.vstr "2024-01-01")]]
      ≠ .noData := by
  refine ⟨rfl, ?_⟩
  decide

/-- C7, amended: on a batch from which no text is extractable,
`comprehensive_analysis` returns the all-neutral empty analysis result, and
each sub-analysis returns its documented neutral/zero sentinel on genuinely
empty input — the text-driven ones on the empty text list, the record-driven
ones (temporal, engagement) on the empty batch. -/
theorem c7_empty_sentinels :
    (∀ (contentList : List Record) (platform : Option String),
      Analyzer.extractTexts contentList = [] →
      Analyzer.comprehensiveAnalysis contentList platform
        = Analyzer.emptyAnalysisResult) ∧
    Analyzer.analyzeBasicSentiment [] = ⟨"neutral", 0, 0, none, none⟩ ∧
    Analyzer.analyzeEmotions []
      = ⟨[("joy", 0), ("anger", 0), ("fear", 0), ("surprise", 0),
          ("sadness", 0), ("trust", 0)], [], some 0, some false⟩ ∧
    Analyzer.extractTopics [] = ⟨[], 0, some 0⟩ ∧
    Analyzer.analyzeAspectSentiment [] = [] ∧
    Analyzer.analyzeIntent []
      = ⟨"unknown", 0, some [("purchase_intent", 0), ("complaint", 0),
          ("compliment", 0), ("feature_request", 0), ("support_needed", 0)],
         some false⟩ ∧
    Analyzer.generateBusinessInsights [] []
      = ⟨[], [], some [], some [], some []⟩ ∧
    Analyzer.analyzeTemporalPatterns [] = .noData ∧
    (∀ platform, Analyzer.analyzeEngagementPatterns [] platform
      = .ok .noData) ∧
    Analyzer.assessContentQuality [] = ⟨0, none⟩ ∧
    Analyzer.extractCompetitiveInsights [] = ⟨[], some false, some 0⟩ ∧
    Analyzer.generateRecommendations ⟨"neutral", 0, 0, none, none⟩
      ⟨"unknown", 0, none, none⟩ .noData = [] := by
  refine ⟨?_, rfl, ?_, rfl, rfl, ?_, rfl, rfl, fun _ => rfl, rfl, rfl, rfl⟩
  · intro contentList platform h
    simp only [Analyzer.comprehensiveAnalysis]
    rw [h]
    rfl
  · norm_num [Analyzer.analyzeEmotions, Analyzer.emotionKeywords,
      sortDescBy, insertDescBy, listMaxQ]
  · norm_num [Analyzer.analyzeIntent, Analyzer.businessIntentKeywords]

/-- Witness for C7: the dated but text-free batch satisfies the amended
theorem's hypothesis, so its comprehensive analysis is the sentinel. -/
theorem c7_empty_sentinels_witness :
    Analyzer.extractTexts [[("date", PyVal.vstr "2024-01-01")]] = [] ∧
    Analyzer.comprehensiveAnalysis [[("date", PyVal.vstr "2024-01-01")]] none
      = Analyzer.emptyAnalysisResult :=
  ⟨rfl, c7_empty_sentinels.1 [[("date", PyVal.vstr "2024-01-01")]] none rfl⟩

end ProductInsight
